import Mathlib

/-!
Verification of the citation pipeline of the `dental_agent` repository.

The Python sources (`agent.py`, `streamlit_app.py`) are shallowly embedded:
Python strings become `List Char`, the concrete regular expressions used by
the code are modelled by executable functions that follow the semantics of
those fixed patterns, and all external I/O (HTTP, the Gemini file store, the
Exa fetcher) is passed in explicitly as oracle/effect values.
-/

namespace DentalAgent

/-- Python strings are modelled as lists of unicode scalar characters. -/
abbrev Str : Type := List Char

/-- Convert a Lean string literal into the model type. -/
def str (s : String) : Str := s.toList

/-- Characters matched by the regex class `\s` (ASCII part; rare unicode
whitespace is not modelled). -/
def isPySpace (c : Char) : Bool :=
  c == ' ' || c == '\t' || c == '\n' || c == '\r' || c == '\x0b' || c == '\x0c'

/-- `pat` occurs in `s` at position `i` (`s[i:].startswith(pat)`). -/
def occursAt (pat s : Str) (i : Nat) : Prop := pat <+: s.drop i

/-- Python substring containment `pat in s`, executable. -/
def containsSub (pat : Str) : Str → Bool
  | [] => pat.isEmpty
  | s@(_ :: t) => pat.isPrefixOf s || containsSub pat t

/-- Python `s.find(pat)` for a pattern: index of the leftmost occurrence. -/
def findSub (pat : Str) : Str → Option Nat
  | [] => if pat.isEmpty then some 0 else none
  | s@(_ :: t) => if pat.isPrefixOf s then some 0 else (findSub pat t).map (· + 1)

/-- Worker for `replaceAll`, structurally recursive on a fuel bound so that
it evaluates inside the kernel; `fuel ≥ s.length` makes it total. -/
def replaceAllGo (p : Char) (pat rep : Str) : Nat → Str → Str
  | _, [] => []
  | 0, s => s
  | fuel + 1, s@(c :: t) =>
    if (p :: pat).isPrefixOf s then
      rep ++ replaceAllGo p pat rep fuel (t.drop pat.length)
    else
      c :: replaceAllGo p pat rep fuel t

/-- `re.sub` with the literal nonempty pattern `p :: pat`: every leftmost,
non-overlapping occurrence is replaced by `rep`. -/
def replaceAll (p : Char) (pat rep : Str) (s : Str) : Str :=
  replaceAllGo p pat rep s.length s

/-- Python `s.split('\n')`. -/
def splitNl : Str → List Str
  | [] => [[]]
  | c :: t =>
    let r := splitNl t
    if c = '\n' then [] :: r
    else
      match r with
      | [] => [[c]]
      | h :: rt => (c :: h) :: rt

/-- The literal part `(from search result [` of the annotation patterns. -/
def litFrom : Str := str "(from search result ["

/-- Inner part of the bibliography-line regex: does `s` begin with a full
annotation `(from search result [<digits>])`?  Returns the digit group. -/
def annAt (s : Str) : Option Str :=
  if litFrom.isPrefixOf s then
    let r := s.drop litFrom.length
    let d := r.takeWhile Char.isDigit
    if !d.isEmpty && (str "])").isPrefixOf (r.drop d.length) then some d else none
  else none

/-- One match step of `re.sub(r'\s*\(from search result \[\d+\]\)', ...)`
at the current position: on success returns the rest of the string after the
matched region (the greedy `\s*` takes the whole whitespace run, which must
be directly followed by the literal). -/
def matchAnn (s : Str) : Option Str :=
  let r := s.dropWhile isPySpace
  if litFrom.isPrefixOf r then
    let r2 := r.drop litFrom.length
    let d := r2.takeWhile Char.isDigit
    if !d.isEmpty && (str "])").isPrefixOf (r2.drop d.length) then
      some (r2.drop (d.length + 2))
    else none
  else none

/-- Worker for `stripAnnotations`, structurally recursive on a fuel bound
(`fuel ≥ s.length` makes it total). -/
def stripAnnotationsGo : Nat → Str → Str
  | _, [] => []
  | 0, s => s
  | fuel + 1, s@(c :: t) =>
    match matchAnn s with
    | some r => stripAnnotationsGo fuel r
    | none => c :: stripAnnotationsGo fuel t

/-- `re.sub(r'\s*\(from search result \[\d+\]\)', '', s)`: remove every
(leftmost, non-overlapping) annotation occurrence. -/
def stripAnnotations (s : Str) : Str :=
  stripAnnotationsGo s.length s

/-- First capture group of the bibliography-line regex, attempted at the
current position: `- [<digits>]`, returning the digits and the rest. -/
def matchSeqAt (s : Str) : Option (Str × Str) :=
  if (str "- [").isPrefixOf s then
    let r := s.drop 3
    let d := r.takeWhile Char.isDigit
    if !d.isEmpty && (r.drop d.length).head? = some ']' then
      some (d, r.drop (d.length + 1))
    else none
  else none

/-- The rightmost full annotation occurrence in `s` (the greedy `.*` of the
bibliography-line regex hands the second group to the last occurrence). -/
def lastAnn : Str → Option Str
  | [] => none
  | s@(_ :: t) =>
    match lastAnn t with
    | some d => some d
    | none => annAt s

/-- `re.search(r'- \[(\d+)\].*\(from search result \[(\d+)\]\)', line)`:
returns `(sequential_num, original_num)` digit groups. -/
def lineMatch : Str → Option (Str × Str)
  | [] => none
  | s@(_ :: t) =>
    match matchSeqAt s with
    | some (d1, rest) =>
      match lastAnn rest with
      | some d2 => some (d1, d2)
      | none => lineMatch t
    | none => lineMatch t

/-- Python dict assignment `m[k] = v` (insertion order preserved; updating
an existing key keeps its position). -/
def dictUpd (m : List (Str × Str)) (k v : Str) : List (Str × Str) :=
  if m.any (fun p => p.1 == k) then
    m.map (fun p => if p.1 = k then (p.1, v) else p)
  else m ++ [(k, v)]

/-- The mapping-extraction loop over the bibliography lines:
`mapping[original_num] = sequential_num`. -/
def extractMapping (lines : List Str) : List (Str × Str) :=
  lines.foldl (fun m line =>
    match lineMatch line with
    | some (seq, orig) => dictUpd m orig seq
    | none => m) []

/-- Python `int` on a digit string. -/
def digitsVal (d : Str) : Nat := d.foldl (fun a c => a * 10 + (c.toNat - 48)) 0

/-- Stable insertion for descending-by-`int` sort. -/
def insertDescKey (x : Str) : List Str → List Str
  | [] => [x]
  | y :: ys =>
    if digitsVal y ≤ digitsVal x then x :: y :: ys else y :: insertDescKey x ys

/-- `sorted(keys, key=int, reverse=True)` (stable). -/
def sortDescInt : List Str → List Str
  | [] => []
  | x :: xs => insertDescKey x (sortDescInt xs)

/-- The lazy group `(.*?)(?:\n\n|$)` with `re.DOTALL`: everything up to the
first blank line, or up to the end (Python `$` also matches just before a
trailing newline). -/
def lazyGroup : Str → Str
  | [] => []
  | c :: t =>
    if c = '\n' ∧ (t = [] ∨ t.head? = some '\n') then []
    else c :: lazyGroup t

/-- Greedy `\s*\n`: consume the whitespace run through its last newline;
fails when the run contains no newline.  Returns the rest. -/
def afterWsNl : Str → Option Str
  | [] => none
  | c :: t =>
    if isPySpace c then
      match afterWsNl t with
      | some r => some r
      | none => if c = '\n' then some t else none
    else none

/-- The header literal `## Sources`. -/
def hdrSources : Str := str "## Sources"

/-- One attempt of `re.search(r'## Sources\s*\n(.*?)(?:\n\n|$)', ...)` at the
current position, returning the first capture group. -/
def srcMatchAt (s : Str) : Option Str :=
  if hdrSources.isPrefixOf s then
    (afterWsNl (s.drop 10)).map lazyGroup
  else none

/-- `re.search(r'## Sources\s*\n(.*?)(?:\n\n|$)', text, re.DOTALL).group(1)`. -/
def sourcesSearch : Str → Option Str
  | [] => none
  | s@(_ :: t) =>
    match srcMatchAt s with
    | some g => some g
    | none => sourcesSearch t

/-- An inline citation token `[<digits>]`. -/
def citTok (d : Str) : Str := '[' :: (d ++ [']'])

/-- `streamlit_app.renumber_inline_citations`. -/
def renumber_inline_citations (text : Str) : Str :=
  match sourcesSearch text with
  | none => text
  | some sourcesText =>
    let mapping := extractMapping (splitNl sourcesText)
    if mapping.isEmpty then
      let cleaned := stripAnnotations sourcesText
      match findSub hdrSources text with
      | some i => text.take i ++ hdrSources ++ '\n' :: cleaned
      | none => text
    else
      match findSub hdrSources text with
      | none => text
      | some i =>
        let before := text.take i
        let sect := text.drop i
        let sortedKeys := sortDescInt (mapping.map Prod.fst)
        let before2 := sortedKeys.foldl (fun b o =>
          match mapping.lookup o with
          | some sq => if o ≠ sq then replaceAll '[' (o ++ [']']) (citTok sq) b else b
          | none => b) before
        before2 ++ stripAnnotations sect

/-- ASCII case conversion, modelling Python `str.lower()` (the code only
handles URLs/filenames, where non-ASCII case mapping does not arise). -/
def pyLower (s : Str) : Str := s.map Char.toLower

/-- Python `s.endswith(pat)`. -/
def endsWith (pat s : Str) : Bool := pat.isSuffixOf s

/-- Python `s.strip()`. -/
def pyStrip (s : Str) : Str := ((s.dropWhile isPySpace).reverse.dropWhile isPySpace).reverse

/-- `os.path.basename` (POSIX): the part after the last `/`. -/
def basename (s : Str) : Str := (s.reverse.takeWhile (· != '/')).reverse

/-- Python `s.split('?')[0]`. -/
def beforeQuery (s : Str) : Str := s.takeWhile (· != '?')

/-- `basename` then `lower()` then `strip()`, the normalisation used by
`check_existing_gemini_file`. -/
def normBase (s : Str) : Str := pyStrip (pyLower (basename s))

/-- Decimal digits of a natural number (worker with fuel, so that it
evaluates in the kernel). -/
def natDigitsGo : Nat → Nat → Str
  | 0, _ => []
  | f + 1, n =>
    if n < 10 then [Char.ofNat (48 + n)]
    else natDigitsGo f (n / 10) ++ [Char.ofNat (48 + n % 10)]

/-- Decimal representation of a natural number. -/
def natDigits (n : Nat) : Str := natDigitsGo (n + 1) n

/-- `agent.detect_pdf_url`. -/
def detect_pdf_url (url : Str) : Bool :=
  endsWith (str ".pdf") (pyLower url) || containsSub (str ".pdf?") (pyLower url) ||
    containsSub (str "application/pdf") (pyLower url)

/-- The claim's reading of the PDF-URL heuristic: case-insensitively, the
URL ends with `.pdf`, or its query string (the part after the first `?`)
contains `.pdf`, or the URL contains `application/pdf`. -/
def claimDetectPdf (url : Str) : Bool :=
  endsWith (str ".pdf") (pyLower url) ||
    (match findSub ['?'] (pyLower url) with
     | some i => containsSub (str ".pdf") ((pyLower url).drop (i + 1))
     | none => false) ||
    containsSub (str "application/pdf") (pyLower url)

/-- Abstract payload bytes. -/
abbrev ByteStr := List Nat

/-- The observable behaviour of one `requests.get` response. -/
structure HttpResp where
  statusOk : Bool
  contentType : Str
  contentLength : Option Str
  chunks : List ByteStr

/-- Python `int(s)` for header values: optional surrounding whitespace and
sign, then at least one digit (digit grouping underscores not modelled). -/
def pyInt (s : Str) : Option Int :=
  match pyStrip s with
  | '-' :: d =>
    if !d.isEmpty && d.all Char.isDigit then some (-(digitsVal d : Int)) else none
  | '+' :: d =>
    if !d.isEmpty && d.all Char.isDigit then some (digitsVal d) else none
  | d =>
    if !d.isEmpty && d.all Char.isDigit then some (digitsVal d) else none

/-- The accumulation loop of `download_pdf_from_url`: append each chunk and
fail as soon as the running total exceeds the cap. -/
def downloadChunks (maxBytes : Nat) : ByteStr → List ByteStr → Option ByteStr
  | acc, [] => some acc
  | acc, c :: cs =>
    if (acc ++ c).length > maxBytes then none
    else downloadChunks maxBytes (acc ++ c) cs

/-- `agent.download_pdf_from_url`.  The network call is the oracle `resp`
(`none` = `requests.get` raised, e.g. a timeout); every failure path of the
source returns `None` through its `except` clauses. -/
def download_pdf_from_url (url : Str) (max_size_mb : Nat) (resp : Option HttpResp) :
    Option ByteStr :=
  match resp with
  | none => none
  | some r =>
    if !r.statusOk then none
    else if !containsSub (str "application/pdf") (pyLower r.contentType)
        && !endsWith (str ".pdf") (pyLower url) then none
    else
      match r.contentLength with
      | some cl =>
        if !cl.isEmpty then
          match pyInt cl with
          | none => none
          | some n =>
            if n > (max_size_mb * 1024 * 1024 : Int) then none
            else downloadChunks (max_size_mb * 1024 * 1024) [] r.chunks
        else downloadChunks (max_size_mb * 1024 * 1024) [] r.chunks
      | none => downloadChunks (max_size_mb * 1024 * 1024) [] r.chunks

/-- A document handle in the Gemini file store. -/
structure GFile where
  name : Str
  display_name : Option Str
  uri : Option Str
deriving DecidableEq

/-- The per-file match test of `check_existing_gemini_file`: display-name
equality or one-directional containment (candidate contained in the stored
display name), else the name fallback (URL filename or raw URL contained in
the lowered store name). -/
def fileMatches (normalized_filename url_filename url : Str) (f : GFile) : Bool :=
  (match f.display_name with
   | some dn =>
     let nd := normBase dn
     (nd == normalized_filename || nd == url_filename) ||
       (containsSub normalized_filename nd || containsSub url_filename nd)
   | none => false) ||
  (containsSub url_filename (pyLower f.name) || containsSub url (pyLower f.name))

/-- `agent.check_existing_gemini_file`.  `apiKeyOk` models a configured API
key, `listing` the oracle result of `genai.list_files()` (`none` =
exception), `cache` the optional pre-fetched file list. -/
def check_existing_gemini_file (url : Str) (filename : Option Str)
    (cache : Option (List GFile)) (apiKeyOk : Bool) (listing : Option (List GFile)) :
    Option GFile :=
  if !apiKeyOk then none
  else
    match (match cache with | some fs => some fs | none => listing) with
    | none => none
    | some files =>
      let fn := filename.getD (basename (beforeQuery url))
      files.find? (fileMatches (normBase fn) (normBase (beforeQuery url)) url)

/-- The claim's reading of store matching: case-insensitive, path-stripped
comparison of the candidate's filename (or URL-derived filename) against
the stored display name, accepting equality and containment in either
direction. -/
def claimMatches (url filename : Str) (f : GFile) : Bool :=
  match f.display_name with
  | some dn =>
    let nd := normBase dn
    let nf := normBase filename
    let uf := normBase (beforeQuery url)
    nd == nf || nd == uf || containsSub nf nd || containsSub uf nd ||
      containsSub nd nf || containsSub nd uf
  | none => false

/-- `agent.upload_pdf_to_gemini`: returns the resulting handle together with
the store entries it created.  `uploadRes` is the oracle for the actual
`genai.upload_file` call (`none` = failure/exception, caught by the source);
the returned handle is the polled ACTIVE one (the unbounded polling loop is
not modelled). -/
def upload_pdf_to_gemini (_pdf_bytes : ByteStr) (filename : Str) (source_url : Str)
    (cache : Option (List GFile)) (apiKeyOk : Bool) (listing : Option (List GFile))
    (uploadRes : Option GFile) : Option GFile × List GFile :=
  if !apiKeyOk then (none, [])
  else
    match check_existing_gemini_file source_url (some filename) cache apiKeyOk listing with
    | some f => (some f, [])
    | none =>
      match uploadRes with
      | some g => (some g, [g])
      | none => (none, [])

/-- `os.path.basename(result.url.split('?')[0]) or f"document_{i}.pdf"`. -/
def resolveFilename (i : Nat) (url : Str) : Str :=
  let b := basename (beforeQuery url)
  if b.isEmpty then str "document_" ++ natDigits i ++ str ".pdf" else b

/-- Effects available to one PDF-resolution attempt in the search loop. -/
structure ResolveEff where
  raising : Bool
  download : Option ByteStr
  upload : Option GFile

/-- One PDF-resolution attempt of the search loop (`agent.py` 487-521):
returns the resolved handle with its `was_reused` flag, and the store
entries created.  `eff.raising` models an exception inside the `try` block
(caught: the entry falls back to a plain web citation). -/
def resolvePdf (i : Nat) (url : Str) (cache : Option (List GFile)) (apiKeyOk : Bool)
    (listing : Option (List GFile)) (eff : ResolveEff) :
    Option (GFile × Bool) × List GFile :=
  if eff.raising then (none, [])
  else
    let filename := resolveFilename i url
    match check_existing_gemini_file url (some filename) cache apiKeyOk listing with
    | some f => (some (f, true), [])
    | none =>
      match eff.download with
      | none => (none, [])
      | some bytes =>
        match upload_pdf_to_gemini bytes filename url cache apiKeyOk listing eff.upload with
        | (some g, created) => (some (g, false), created)
        | (none, created) => (none, created)

/-- `pdf_info.get("was_reused", False)` and the optional handle of one
auto-uploaded PDF record in the session state. -/
structure AutoPdfInfo where
  was_reused : Option Bool
  gemini_file : Option GFile

/-- One user-uploaded file record (`gemini_file = none` models a record the
per-file `try` fails on). -/
structure UploadedFileInfo where
  name : Str
  gemini_file : Option GFile

/-- The session state fields `reset_conversation` touches. -/
structure SessionState (α β : Type) where
  messages : List α
  tool_calls_history : List β
  uploaded_files : List UploadedFileInfo
  auto_uploaded_pdfs : List AutoPdfInfo

/-- Effects available to `reset_conversation`. -/
structure ResetEff where
  configureOk : Bool
  deleteOk : Str → Bool

/-- The file names `reset_conversation` passes to `genai.delete_file`, in
order: user-uploaded handles, then auto-uploaded handles not marked
`was_reused`. -/
def resetDeleteAttempts (st : SessionState α β) : List Str :=
  (st.uploaded_files.filterMap (fun fi => fi.gemini_file.map (·.name))) ++
  (st.auto_uploaded_pdfs.filterMap (fun p =>
     if p.was_reused.getD false then none else p.gemini_file.map (·.name)))

/-- `streamlit_app.reset_conversation`: returns the cleared session state
and the store after the best-effort deletions (an entry disappears when a
delete is attempted for its name and the delete succeeds; every failure is
swallowed). -/
def reset_conversation (st : SessionState α β) (store : List GFile) (eff : ResetEff) :
    SessionState α β × List GFile :=
  let store2 :=
    if eff.configureOk then
      store.filter (fun g => !((resetDeleteAttempts st).contains g.name && eff.deleteOk g.name))
    else store
  (⟨[], [], [], []⟩, store2)

/-- Interleaving of citation tokens with bracket-free segments: the shape
of body text the inline-replacement loop acts on. -/
def interleave (s0 : Str) (l : List (Str × Str)) : Str :=
  s0 ++ (l.map (fun p => citTok p.1 ++ p.2)).flatten

/-- Nonempty all-ASCII-digit strings (the shape of regex digit captures). -/
def isDigits (d : Str) : Bool := !d.isEmpty && d.all Char.isDigit

/-- Token-level effect of the sequential replacement fold: each processed
key rewrites a token currently equal to it. -/
def applyKeys (m : List (Str × Str)) (ks : List Str) (t : Str) : Str :=
  ks.foldl (fun v o => if v = o then (m.lookup o).getD v else v) t

/-! ### JSON: the values `json.loads` produces, plus attached store handles -/

/-- A Python value produced by `json.loads`, extended with the store-handle
objects the session code attaches under `"gemini_file"` (never produced by
the parser itself).  Objects are insertion-ordered key/value lists with
unique keys (Python dicts). -/
inductive JVal where
  | jnull
  | jbool (b : Bool)
  | jint (n : Int)
  | jstr (s : Str)
  | jarr (l : List JVal)
  | jobj (fields : List (Str × JVal))
  | jfile (f : GFile)

/-- Python dict assignment for parsed objects (last duplicate key wins,
keeping the first position). -/
def jdictUpd (m : List (Str × JVal)) (k : Str) (v : JVal) : List (Str × JVal) :=
  if m.any (fun p => p.1 == k) then
    m.map (fun p => if p.1 = k then (p.1, v) else p)
  else m ++ [(k, v)]

/-- Lowercase hex digit. -/
def hexDigitChar (n : Nat) : Char :=
  if n < 10 then Char.ofNat (48 + n) else Char.ofNat (87 + n)

/-- Four-digit lowercase hex, as in `\uXXXX`. -/
def toHex4 (n : Nat) : Str :=
  [hexDigitChar (n / 4096 % 16), hexDigitChar (n / 256 % 16),
    hexDigitChar (n / 16 % 16), hexDigitChar (n % 16)]

/-- `json.dumps` escaping of one character (`ensure_ascii=True`: printable
ASCII kept, everything else `\uXXXX`, astral characters as surrogate
pairs). -/
def escChar (c : Char) : Str :=
  if c = '"' then str "\\\""
  else if c = '\\' then str "\\\\"
  else if c = '\n' then str "\\n"
  else if c = '\r' then str "\\r"
  else if c = '\t' then str "\\t"
  else if c = '\x08' then str "\\b"
  else if c = '\x0c' then str "\\f"
  else if c.toNat < 32 then '\\' :: 'u' :: toHex4 c.toNat
  else if c.toNat < 127 then [c]
  else if c.toNat < 65536 then '\\' :: 'u' :: toHex4 c.toNat
  else
    ('\\' :: 'u' :: toHex4 (55296 + (c.toNat - 65536) / 1024)) ++
      ('\\' :: 'u' :: toHex4 (56320 + (c.toNat - 65536) % 1024))

/-- `json.dumps` of a string. -/
def jstrDump (s : Str) : Str := '"' :: ((s.map escChar).flatten ++ ['"'])

/-- JSON whitespace. -/
def isJsonWs (c : Char) : Bool := c == ' ' || c == '\t' || c == '\n' || c == '\r'

/-- Skip JSON whitespace. -/
def skipWs (s : Str) : Str := s.dropWhile isJsonWs

/-- Hex digit value accepted by `\uXXXX`. -/
def hexVal (c : Char) : Option Nat :=
  if '0' ≤ c ∧ c ≤ '9' then some (c.toNat - 48)
  else if 'a' ≤ c ∧ c ≤ 'f' then some (c.toNat - 87)
  else if 'A' ≤ c ∧ c ≤ 'F' then some (c.toNat - 55)
  else none

/-- Parse exactly four hex digits. -/
def parseHex4 : Str → Option (Nat × Str)
  | a :: b :: c :: d :: rest =>
    match hexVal a, hexVal b, hexVal c, hexVal d with
    | some x, some y, some z, some w => some (((x * 16 + y) * 16 + z) * 16 + w, rest)
    | _, _, _, _ => none
  | _ => none

/-- Parse a JSON string body (after the opening quote) up to the closing
quote; handles the escape sequences `json.loads` accepts in strict mode.
Lone surrogate escapes (which CPython would keep as unpaired surrogate
code units, unrepresentable as unicode scalars) are rejected. -/
def parseStrBody : Nat → Str → Option (Str × Str)
  | 0, _ => none
  | fuel + 1, s =>
    match s with
    | [] => none
    | c :: t =>
      if c = '"' then some ([], t)
      else if c = '\\' then
        match t with
        | [] => none
        | e :: t2 =>
          if e = '"' then (parseStrBody fuel t2).map (fun p => ('"' :: p.1, p.2))
          else if e = '\\' then (parseStrBody fuel t2).map (fun p => ('\\' :: p.1, p.2))
          else if e = '/' then (parseStrBody fuel t2).map (fun p => ('/' :: p.1, p.2))
          else if e = 'b' then (parseStrBody fuel t2).map (fun p => ('\x08' :: p.1, p.2))
          else if e = 'f' then (parseStrBody fuel t2).map (fun p => ('\x0c' :: p.1, p.2))
          else if e = 'n' then (parseStrBody fuel t2).map (fun p => ('\n' :: p.1, p.2))
          else if e = 'r' then (parseStrBody fuel t2).map (fun p => ('\r' :: p.1, p.2))
          else if e = 't' then (parseStrBody fuel t2).map (fun p => ('\t' :: p.1, p.2))
          else if e = 'u' then
            match parseHex4 t2 with
            | none => none
            | some (n, t3) =>
              if 55296 ≤ n ∧ n ≤ 56319 then
                match t3 with
                | '\\' :: 'u' :: t4 =>
                  match parseHex4 t4 with
                  | none => none
                  | some (n2, t5) =>
                    if 56320 ≤ n2 ∧ n2 ≤ 57343 then
                      (parseStrBody fuel t5).map (fun p =>
                        (Char.ofNat (65536 + (n - 55296) * 1024 + (n2 - 56320)) :: p.1, p.2))
                    else none
                | _ => none
              else if 56320 ≤ n ∧ n ≤ 57343 then none
              else (parseStrBody fuel t3).map (fun p => (Char.ofNat n :: p.1, p.2))
          else none
      else if c.toNat < 32 then none
      else (parseStrBody fuel t).map (fun p => (c :: p.1, p.2))

/-- Parse a JSON natural-number literal (maximal digit run, no leading
zero). -/
def parseJNat (s : Str) : Option (Nat × Str) :=
  match s.takeWhile Char.isDigit with
  | [] => none
  | d =>
    if d.head? = some '0' ∧ 1 < d.length then none
    else some (digitsVal d, s.drop d.length)

/-- Parse a JSON number.  Floats (a `.`, `e` or `E` after the integer part)
are rejected: `json.loads` would produce a float there, which this model
does not represent; the serializer under verification never emits one. -/
def parseJNum (s : Str) : Option (Int × Str) :=
  match s with
  | '-' :: t =>
    match parseJNat t with
    | none => none
    | some (n, r) =>
      if r.head? = some '.' ∨ r.head? = some 'e' ∨ r.head? = some 'E' then none
      else some (-(n : Int), r)
  | _ =>
    match parseJNat s with
    | none => none
    | some (n, r) =>
      if r.head? = some '.' ∨ r.head? = some 'e' ∨ r.head? = some 'E' then none
      else some ((n : Int), r)

mutual

/-- Recursive-descent model of `json.loads` on one value (fuel-bounded). -/
def parseJVal : Nat → Str → Option (JVal × Str)
  | 0, _ => none
  | fuel + 1, s0 =>
    let s := skipWs s0
    if (str "null").isPrefixOf s then some (.jnull, s.drop 4)
    else if (str "true").isPrefixOf s then some (.jbool true, s.drop 4)
    else if (str "false").isPrefixOf s then some (.jbool false, s.drop 5)
    else
      match s with
      | '"' :: t => (parseStrBody fuel t).map (fun p => (JVal.jstr p.1, p.2))
      | '[' :: t =>
        match skipWs t with
        | ']' :: r => some (.jarr [], r)
        | _ => (parseJArr fuel t).map (fun p => (JVal.jarr p.1, p.2))
      | '\x7b' :: t =>
        match skipWs t with
        | '\x7d' :: r => some (.jobj [], r)
        | _ => (parseJObj fuel [] t).map (fun p => (JVal.jobj p.1, p.2))
      | _ => parseJNum s |>.map (fun p => (JVal.jint p.1, p.2))

/-- Array elements after `[` (at least one element present). -/
def parseJArr : Nat → Str → Option (List JVal × Str)
  | 0, _ => none
  | fuel + 1, s =>
    match parseJVal fuel s with
    | none => none
    | some (v, r) =>
      match skipWs r with
      | ',' :: r2 => (parseJArr fuel r2).map (fun p => (v :: p.1, p.2))
      | ']' :: r2 => some ([v], r2)
      | _ => none

/-- Object members after `{` (at least one member present); duplicate keys
follow dict semantics (last wins). -/
def parseJObj : Nat → List (Str × JVal) → Str → Option (List (Str × JVal) × Str)
  | 0, _, _ => none
  | fuel + 1, acc, s =>
    match skipWs s with
    | '"' :: t =>
      match parseStrBody fuel t with
      | none => none
      | some (k, r) =>
        match skipWs r with
        | ':' :: r2 =>
          match parseJVal fuel r2 with
          | none => none
          | some (v, r3) =>
            match skipWs r3 with
            | ',' :: r4 => parseJObj fuel (jdictUpd acc k v) r4
            | '\x7d' :: r4 => some (jdictUpd acc k v, r4)
            | _ => none
        | _ => none
    | _ => none

end

/-- `json.loads`: parse one value with surrounding whitespace, requiring
the whole input to be consumed; `none` models the raised `JSONDecodeError`. -/
def jsonParse (s : Str) : Option JVal :=
  match parseJVal (2 * s.length + 3) s with
  | some (v, rest) => if (skipWs rest).isEmpty then some v else none
  | none => none

/-! ### The search tool: evidence-table construction (`dental_guideline_search`) -/

/-- One raw result returned by the Exa fetcher. -/
structure SearchResult where
  title : Str
  url : Str
  text : Option Str
  published_date : Option Str

/-- One entry of the `auto_uploaded_pdfs` list built by the search loop
(`is_auto_uploaded` is the constant `True` in the source). -/
structure AutoPdfRecord where
  url : Str
  filename : Str
  gemini_file : GFile
  was_reused : Bool
  citation_number : Nat

/-- Per-call environment and effects of one `dental_guideline_search` call:
configuration flag, API-key presence, the `genai.list_files()` oracle, the
per-result resolution effects, and the `fromisoformat`/`strftime` date
formatter (`none` = parse error, falling back to the raw date). -/
structure SearchEnv where
  auto_upload_pdfs : Bool
  apiKeyOk : Bool
  listing : Option (List GFile)
  effs : Nat → ResolveEff
  fmtDate : Str → Option Str

/-- The cached `genai.list_files()` result (populated only when auto-upload
is enabled and the API key is present; an exception leaves it `None`). -/
def searchCache (env : SearchEnv) : Option (List GFile) :=
  if env.auto_upload_pdfs && env.apiKeyOk then env.listing else none

/-- Lines 467-468 of `agent.py`. -/
def searchHeader : Str :=
  str "SEARCH RESULTS WITH CITATIONS:\nWhen referencing information from these sources, use the citation number [1], [2], etc.\n\n"

/-- Lines 524-526 of `agent.py`. -/
def pdfNote (i : Nat) : Str :=
  str "    📄 PDF auto-uploaded and available for direct reference\n" ++
  str "    ⚠️ NOTE: Citation [" ++ natDigits i ++
  str "] is a PDF document available for multimodal reference\n" ++
  str "    ⚠️ Use [" ++ natDigits i ++
  str "] when citing this PDF source in your response\n"

/-- Line 529 of `agent.py`. -/
def reusedNote : Str :=
  str "    📄 PDF available for direct reference (reused from previous upload)\n"

/-- Lines 562-573 of `agent.py`. -/
def citationRules : Str :=
  str "\nIMPORTANT CITATION RULES:\n" ++
  str "- When you reference information from these sources in your response, you MUST include inline citations using the format [1], [2], etc. corresponding to the source numbers above.\n" ++
  str "- In your Sources section, ONLY list the sources you actually cited/referenced in your response text.\n" ++
  str "- Do NOT list all available sources - only include the ones you used.\n" ++
  str "- CRITICAL: In the Sources section, you MUST renumber citations sequentially starting from [1], even if your inline citations used different numbers.\n" ++
  str "- MANDATORY FORMAT: Each Sources entry must show the original search result number: \x27[1] Title - URL (from search result [X])\x27\n" ++
  str "- Example: If you cited [1], [2], [7], [11] in your text, list them in Sources as:\n" ++
  str "  [1] Title - URL (from search result [1])\n" ++
  str "  [2] Title - URL (from search result [2])\n" ++
  str "  [3] Title - URL (from search result [7])\n" ++
  str "  [4] Title - URL (from search result [11])\n" ++
  str "- VALIDATION: Before finalizing, verify EVERY citation number you used inline appears in Sources. If you cited [8], [8] MUST be in Sources (renumbered).\n"

/-- Line 465 of `agent.py`. -/
def noResultsMsg (query : Str) : Str :=
  str "No relevant guidelines or information was found from the trusted dental sources for the query: \x27" ++
  query ++
  str "\x27. Try rephrasing with more specific terms or including organization names (e.g., \x27ADA\x27, \x27CDC\x27, \x27AAPD\x27)."

/-- The `Published:` line(s) for one result (lines 539-554): a truthy
string date is formatted via `fromisoformat`, falling back to the raw
value on a parse error. -/
def dateLines (fmtDate : Str → Option Str) (r : SearchResult) : Str :=
  match r.published_date with
  | none => []
  | some d =>
    if d.isEmpty then []
    else
      match fmtDate d with
      | some fd => str "    Published: " ++ fd ++ ['\n']
      | none => str "    Published: " ++ d ++ ['\n']

/-- The `Content:` line for one result (lines 556-559). -/
def contentLine (r : SearchResult) : Str :=
  match r.text with
  | some t =>
    if t.isEmpty then str "    Content: (No text content available)\n"
    else str "    Content: " ++ t ++ ['\n']
  | none => str "    Content: (No text content available)\n"

/-- One iteration of the result loop (lines 482-560): the rendered block,
the auto-upload record (when a PDF was resolved), and the store entries
created. -/
def resultEntry (env : SearchEnv) (i : Nat) (r : SearchResult) :
    Str × Option AutoPdfRecord × List GFile :=
  let head := ('[' :: natDigits i) ++ str "] " ++ r.title ++ ['\n'] ++
    str "    URL: " ++ r.url ++ ['\n']
  let resolved :=
    if env.auto_upload_pdfs && detect_pdf_url r.url then
      resolvePdf i r.url (searchCache env) env.apiKeyOk env.listing (env.effs i)
    else (none, [])
  match resolved with
  | (some (g, wr), created) =>
    (head ++ (if wr then reusedNote else []) ++ pdfNote i ++
      dateLines env.fmtDate r ++ contentLine r ++ ['\n'],
     some ⟨r.url, resolveFilename i r.url, g, wr, i⟩, created)
  | (none, created) =>
    (head ++ dateLines env.fmtDate r ++ contentLine r ++ ['\n'], none, created)

/-- The result loop, accumulating the table text, the auto-upload records
and the created store entries. -/
def searchLoop (env : SearchEnv) : Nat → List SearchResult →
    Str × List AutoPdfRecord × List GFile
  | _, [] => ([], [], [])
  | i, r :: rs =>
    let e := resultEntry env i r
    let rest := searchLoop env (i + 1) rs
    (e.1 ++ rest.1,
     (match e.2.1 with
      | some a => a :: rest.2.1
      | none => rest.2.1),
     e.2.2 ++ rest.2.2)

/-- `json.dumps` of `None`-or-string (the `uri` field). -/
def jOptUriDump : Option Str → Str
  | some s => jstrDump s
  | none => str "null"

/-- `json.dumps` of one `pdf_info` dict (lines 587-593; key order is the
insertion order of the source). -/
def pdfInfoDump (a : AutoPdfRecord) : Str :=
  '\x7b' :: (jstrDump (str "url") ++ str ": " ++ jstrDump a.url ++ str ", " ++
    jstrDump (str "filename") ++ str ": " ++ jstrDump a.filename ++ str ", " ++
    jstrDump (str "uri") ++ str ": " ++ jOptUriDump a.gemini_file.uri ++ str ", " ++
    jstrDump (str "citation_number") ++ str ": " ++ natDigits a.citation_number ++
    str ", " ++
    jstrDump (str "was_reused") ++ str ": " ++
    (if a.was_reused then str "true" else str "false") ++ ['\x7d'])

/-- Comma-joined object list. -/
def pdfInfoListBody : List AutoPdfRecord → Str
  | [] => []
  | [a] => pdfInfoDump a
  | a :: rest => pdfInfoDump a ++ str ", " ++ pdfInfoListBody rest

/-- `json.dumps(pdf_info)` for the whole list. -/
def pdfInfoListDump (autos : List AutoPdfRecord) : Str :=
  '[' :: (pdfInfoListBody autos ++ [']'])

/-- The out-of-band block appended when PDFs were auto-uploaded
(lines 575-595). -/
def autoBlock (autos : List AutoPdfRecord) : Str :=
  if autos.isEmpty then []
  else '\n' :: (str "<AUTO_UPLOADED_PDFS>" ++ pdfInfoListDump autos ++
    str "</AUTO_UPLOADED_PDFS>")

/-- `agent.dental_guideline_search` (the part after the fetcher returned
`results`; the fetcher call itself and its exception path are outside this
model). -/
def dental_guideline_search (env : SearchEnv) (results : List SearchResult)
    (query : Str) : Str :=
  if results.isEmpty then noResultsMsg query
  else
    searchHeader ++ (searchLoop env 1 results).1 ++ citationRules ++
      autoBlock (searchLoop env 1 results).2.1

/-- The auto-upload records of one call (the session-ledger side of the
round trip). -/
def searchAutos (env : SearchEnv) (results : List SearchResult) : List AutoPdfRecord :=
  (searchLoop env 1 results).2.1

/-! ### `streamlit_app.extract_auto_uploaded_pdfs` -/

/-- The block delimiters. -/
def openTag : Str := str "<AUTO_UPLOADED_PDFS>"

/-- The closing delimiter. -/
def closeTag : Str := str "</AUTO_UPLOADED_PDFS>"

/-- The lazy group of `<AUTO_UPLOADED_PDFS>(.*?)</AUTO_UPLOADED_PDFS>`:
text up to the first closing tag; `none` when no closing tag follows. -/
def uptoCloseTag : Str → Option Str
  | [] => none
  | s@(c :: t) =>
    if closeTag.isPrefixOf s then some []
    else (uptoCloseTag t).map (fun g => c :: g)

/-- `re.search` for the delimiter pair (leftmost opening tag that has a
closing tag after it; lazy group). -/
def blockSearch : Str → Option Str
  | [] => none
  | s@(_ :: t) =>
    match (if openTag.isPrefixOf s then uptoCloseTag (s.drop openTag.length) else none) with
    | some g => some g
    | none => blockSearch t

/-- The `pdf_info["gemini_file"] = file` attachment for one parsed dict
(lines 122-129): a truthy string `uri` looked up among the listed files. -/
def attachFields (fs : List GFile) (fields : List (Str × JVal)) : List (Str × JVal) :=
  match fields.lookup (str "uri") with
  | some (.jstr u) =>
    if u.isEmpty then fields
    else
      match fs.find? (fun f => f.uri == some u) with
      | some f => jdictUpd fields (str "gemini_file") (.jfile f)
      | none => fields
  | _ => fields

/-- The attachment loop over the parsed list: a non-dict entry raises
`AttributeError` inside the inner `try` (swallowed), leaving the remaining
entries untouched. -/
def attachAll (fs : List GFile) : List JVal → List JVal
  | [] => []
  | e :: rest =>
    match e with
    | .jobj fields => .jobj (attachFields fs fields) :: attachAll fs rest
    | other => other :: rest

/-- `streamlit_app.extract_auto_uploaded_pdfs`.  `files` is the oracle
result of `genai.list_files()` inside the inner `try` (`none` = that call
raised; the exception is swallowed and the parsed value returned
unchanged).  Every failure of the block search or of `json.loads` yields
the empty list through the outer `except`. -/
def extract_auto_uploaded_pdfs (tool_result : Str) (files : Option (List GFile)) : JVal :=
  match blockSearch tool_result with
  | none => .jarr []
  | some pdf_json =>
    match jsonParse pdf_json with
    | none => .jarr []
    | some v =>
      match v with
      | .jarr entries =>
        match files with
        | none => .jarr entries
        | some fs => .jarr (attachAll fs entries)
      | other => other


/-! ### Parsed form of the serialized auto-upload records -/

/-- The parsed form of one serialized `pdf_info` dict\x27s `uri` field. -/
def jOptUriVal : Option Str → JVal
  | some u => .jstr u
  | none => .jnull

/-- Length of the optional `uri` string. -/
def uriLen : Option Str → Nat
  | some u => u.length
  | none => 0

/-- The `JVal` recovered by `json.loads` from one serialized `pdf_info`. -/
def autoJVal (a : AutoPdfRecord) : JVal :=
  .jobj [(str "url", .jstr a.url), (str "filename", .jstr a.filename),
    (str "uri", jOptUriVal a.gemini_file.uri),
    (str "citation_number", .jint (a.citation_number : Int)),
    (str "was_reused", .jbool a.was_reused)]

/-- Fuel needed by `parseJVal` on one serialized `pdf_info`. -/
def recFuel (a : AutoPdfRecord) : Nat :=
  a.url.length + a.filename.length + uriLen a.gemini_file.uri + 25

/-- Fuel needed by `parseJArr` on a serialized `pdf_info` list body. -/
def listFuel : List AutoPdfRecord → Nat
  | [] => 1
  | a :: l => recFuel a + listFuel l + 1

/-! ### General lemmas about the string primitives -/

theorem matchAnn_length_lt {s r : Str} (h : matchAnn s = some r) :
    r.length < s.length := by
  simp only [matchAnn] at h
  split_ifs at h with h1 h2
  · have hr : (s.dropWhile isPySpace).length ≤ s.length :=
      (List.dropWhile_suffix isPySpace).length_le
    have hp : litFrom.length ≤ (s.dropWhile isPySpace).length :=
      (List.isPrefixOf_iff_prefix.mp h1).length_le
    have hlit : litFrom.length = 21 := by decide
    simp only [Option.some.injEq] at h
    subst h
    simp only [List.length_drop]
    omega

theorem containsSub_iff_exists {pat s : Str} :
    containsSub pat s = true ↔ ∃ i, occursAt pat s i := by
  induction s with
  | nil =>
    simp only [containsSub, occursAt, List.drop_nil, List.isEmpty_iff]
    constructor
    · rintro rfl
      exact ⟨0, List.prefix_refl []⟩
    · rintro ⟨i, h⟩
      exact List.prefix_nil.mp h
  | cons c t ih =>
    simp only [containsSub, Bool.or_eq_true, ih]
    constructor
    · rintro (h | ⟨i, hi⟩)
      · exact ⟨0, by simpa [occursAt] using List.isPrefixOf_iff_prefix.mp h⟩
      · exact ⟨i + 1, by simpa [occursAt] using hi⟩
    · rintro ⟨i, hi⟩
      cases i with
      | zero =>
        exact Or.inl (List.isPrefixOf_iff_prefix.mpr (by simpa [occursAt] using hi))
      | succ j => exact Or.inr ⟨j, by simpa [occursAt] using hi⟩

theorem endsWith_iff_exists {pat s : Str} :
    endsWith pat s = true ↔ ∃ a, s = a ++ pat := by
  simp only [endsWith, List.isSuffixOf_iff_suffix]
  constructor
  · rintro ⟨a, ha⟩
    exact ⟨a, ha.symm⟩
  · rintro ⟨a, ha⟩
    exact ⟨a, ha.symm⟩

theorem downloadChunks_eq_some {maxB : Nat} {acc v : ByteStr} {cs : List ByteStr} :
    downloadChunks maxB acc cs = some v ↔
      v = acc ++ cs.flatten ∧ (cs = [] ∨ (acc ++ cs.flatten).length ≤ maxB) := by
  induction cs generalizing acc with
  | nil => simp [downloadChunks, eq_comm]
  | cons c cs ih =>
    simp only [downloadChunks]
    split_ifs with h
    · simp only [false_iff, reduceCtorEq]
      rintro ⟨rfl, (h2 | h2)⟩
      · simp at h2
      · simp only [List.flatten_cons, ← List.append_assoc] at h2
        have : (acc ++ c).length ≤ (acc ++ c ++ cs.flatten).length := by
          simp [List.length_append]
        omega
    · rw [ih]
      constructor
      · rintro ⟨rfl, h2⟩
        refine ⟨by simp, Or.inr ?_⟩
        rcases h2 with rfl | h2
        · simpa using Nat.le_of_not_lt h
        · simpa [List.append_assoc] using h2
      · rintro ⟨rfl, h2⟩
        refine ⟨by simp, ?_⟩
        rcases h2 with h2 | h2
        · simp at h2
        · exact Or.inr (by simpa [List.append_assoc] using h2)

theorem downloadChunks_nil_acc {maxB : Nat} {cs : List ByteStr} {v : ByteStr} :
    downloadChunks maxB [] cs = some v ↔ v = cs.flatten ∧ cs.flatten.length ≤ maxB := by
  rw [downloadChunks_eq_some]
  constructor
  · rintro ⟨rfl, (rfl | h)⟩ <;> simp_all
  · rintro ⟨rfl, h⟩
    exact ⟨by simp, Or.inr (by simpa using h)⟩

theorem downloadLenGuard (m : Nat) (co : Option Str) (cs : List ByteStr) (b : ByteStr) :
    (match co with
      | some cl =>
        if !cl.isEmpty then
          match pyInt cl with
          | none => none
          | some n =>
            if n > (m * 1024 * 1024 : Int) then none
            else downloadChunks (m * 1024 * 1024) [] cs
        else downloadChunks (m * 1024 * 1024) [] cs
      | none => downloadChunks (m * 1024 * 1024) [] cs) = some b ↔
      ((∀ cl, co = some cl → cl ≠ [] →
          ∃ n, pyInt cl = some n ∧ n ≤ (m * 1024 * 1024 : Int)) ∧
        b = cs.flatten ∧ cs.flatten.length ≤ m * 1024 * 1024) := by
  rcases co with _ | cl
  · simp only [downloadChunks_nil_acc]
    constructor
    · rintro ⟨rfl, h⟩
      exact ⟨fun cl h1 h2 => Option.noConfusion h1, rfl, h⟩
    · rintro ⟨_, rfl, h⟩
      exact ⟨rfl, h⟩
  · by_cases hce : cl.isEmpty
    · have hnil : cl = [] := by simpa [List.isEmpty_iff] using hce
      subst hnil
      simp only [List.isEmpty_nil, Bool.not_true, if_false, downloadChunks_nil_acc,
        Bool.false_eq_true, reduceIte]
      constructor
      · rintro ⟨rfl, h⟩
        refine ⟨?_, rfl, h⟩
        rintro cl' hcl' hne
        cases hcl'
        exact absurd rfl hne
      · rintro ⟨_, rfl, h⟩
        exact ⟨rfl, h⟩
    · have hce' : cl.isEmpty = false := by
        revert hce
        cases cl.isEmpty <;> simp
      have hne : cl ≠ [] := by
        intro hnil
        rw [hnil] at hce'
        simp at hce'
      rcases hpi : pyInt cl with _ | n
      · simp only [hce', Bool.not_false, if_true, reduceIte, hpi]
        constructor
        · rintro h
          cases h
        · rintro ⟨hall, _, _⟩
          rcases hall cl rfl hne with ⟨n, hn, _⟩
          rw [hpi] at hn
          cases hn
      · simp only [hce', Bool.not_false, if_true, reduceIte, hpi]
        by_cases hn : n > (m * 1024 * 1024 : Int)
        · rw [if_pos hn]
          constructor
          · rintro h
            cases h
          · rintro ⟨hall, _, _⟩
            rcases hall cl rfl hne with ⟨n', hn', hle⟩
            rw [hpi] at hn'
            cases hn'
            omega
        · rw [if_neg hn, downloadChunks_nil_acc]
          constructor
          · rintro ⟨rfl, h⟩
            refine ⟨?_, rfl, h⟩
            rintro cl' hcl' _
            cases hcl'
            exact ⟨n, hpi, by omega⟩
          · rintro ⟨_, rfl, h⟩
            exact ⟨rfl, h⟩

/-! ### C8: the PDF-URL heuristic -/

/-- C8: counterexample.  The claim describes the heuristic as "the query
string contains `.pdf`", but the code tests for the literal substring
`.pdf?`.  For `http://h/p?a.pdfb` the claim's predicate holds while
`detect_pdf_url` is false; for `http://h/a.pdf?x=1` the code is true while
the claim's predicate is false. -/
theorem C8_counterexample :
    detect_pdf_url (str "http://h/p?a.pdfb") = false ∧
      claimDetectPdf (str "http://h/p?a.pdfb") = true ∧
      detect_pdf_url (str "http://h/a.pdf?x=1") = true ∧
      claimDetectPdf (str "http://h/a.pdf?x=1") = false := by decide

/-- C8 (amended): `detect_pdf_url url` is true exactly when, compared
case-insensitively, the URL ends with `.pdf`, or contains the substring
`.pdf?` (a `.pdf` occurrence directly followed by a query separator), or
contains the substring `application/pdf`. -/
theorem C8_detect_pdf_url_characterisation (url : Str) :
    detect_pdf_url url = true ↔
      (∃ a, pyLower url = a ++ str ".pdf") ∨
      (∃ i, occursAt (str ".pdf?") (pyLower url) i) ∨
      (∃ i, occursAt (str "application/pdf") (pyLower url) i) := by
  simp only [detect_pdf_url, Bool.or_eq_true, endsWith_iff_exists, containsSub_iff_exists,
    or_assoc]

/-- C8: witness for the amended characterisation at concrete URLs. -/
theorem C8_witness : detect_pdf_url (str "http://h/guide.PDF") = true :=
  (C8_detect_pdf_url_characterisation (str "http://h/guide.PDF")).mpr
    (Or.inl ⟨str "http://h/guide", by decide⟩)

/-! ### C7: the PDF download guard -/

/-- C7: `download_pdf_from_url` returns bytes exactly when the fetch
succeeded, the content is identified as PDF (content type contains
`application/pdf`, or the URL ends in `.pdf`), any nonempty Content-Length
header parses to a value within the cap, and the accumulated payload itself
is within the cap (the cap is checked per chunk, so the header is never the
only guard); the returned bytes are the concatenated chunks.  All failure
paths return `none`; the function is total (never raises). -/
theorem C7_download_pdf_spec (url : Str) (m : Nat) (resp : Option HttpResp) (b : ByteStr) :
    download_pdf_from_url url m resp = some b ↔
      ∃ r, resp = some r ∧ r.statusOk = true ∧
        (containsSub (str "application/pdf") (pyLower r.contentType) = true ∨
          endsWith (str ".pdf") (pyLower url) = true) ∧
        (∀ cl, r.contentLength = some cl → cl ≠ [] →
          ∃ n, pyInt cl = some n ∧ n ≤ (m * 1024 * 1024 : Int)) ∧
        b = r.chunks.flatten ∧ r.chunks.flatten.length ≤ m * 1024 * 1024 := by
  cases resp with
  | none => simp [download_pdf_from_url]
  | some r =>
    simp only [download_pdf_from_url, Option.some.injEq, exists_eq_left']
    by_cases hok : r.statusOk = true
    case neg =>
      have hok' : r.statusOk = false := by
        revert hok
        cases r.statusOk <;> simp
      simp [hok']
    case pos =>
      by_cases hA : containsSub (str "application/pdf") (pyLower r.contentType) = true
        <;> by_cases hB : endsWith (str ".pdf") (pyLower url) = true
        <;> simp only [hok, hA, hB, Bool.not_true, Bool.not_false, Bool.false_and,
              Bool.and_false, Bool.and_true, Bool.true_and, if_false, if_true,
              Bool.false_eq_true, or_self, or_true, true_or, true_and, false_or,
              iff_false, false_and, reduceIte]
      · exact downloadLenGuard m r.contentLength r.chunks b
      · exact downloadLenGuard m r.contentLength r.chunks b
      · exact downloadLenGuard m r.contentLength r.chunks b
      · simp

/-- C7: witness instantiating the download characterisation. -/
theorem C7_witness :
    download_pdf_from_url (str "http://h/a.pdf") 1
      (some ⟨true, str "application/pdf", some (str "6"), [[1, 2, 3], [4]]⟩) =
      some [1, 2, 3, 4] :=
  (C7_download_pdf_spec (str "http://h/a.pdf") 1
      (some ⟨true, str "application/pdf", some (str "6"), [[1, 2, 3], [4]]⟩) [1, 2, 3, 4]).mpr
    ⟨⟨true, str "application/pdf", some (str "6"), [[1, 2, 3], [4]]⟩, rfl, rfl,
      Or.inl (by decide),
      fun cl hcl _ => by
        cases hcl
        exact ⟨6, by decide, by decide⟩,
      by decide, by decide⟩

/-! ### C6: store matching and reuse -/

/-- C6: counterexample.  The claim says matching accepts containment in
either direction; the code only accepts the candidate's (URL-derived)
filename contained in the stored display name.  With stored display name
`abc.pdf` and candidate filename `xyz_abc.pdf`, the claim's matcher matches
(stored name contained in candidate), but resolution finds nothing, marks
`was_reused = false`, and creates a fresh store entry. -/
theorem C6_counterexample :
    claimMatches (str "http://h/xyz_abc.pdf") (str "xyz_abc.pdf")
        ⟨str "files/old1", some (str "abc.pdf"), none⟩ = true ∧
      check_existing_gemini_file (str "http://h/xyz_abc.pdf") (some (str "xyz_abc.pdf"))
        (some [⟨str "files/old1", some (str "abc.pdf"), none⟩]) true none = none ∧
      resolvePdf 1 (str "http://h/xyz_abc.pdf")
        (some [⟨str "files/old1", some (str "abc.pdf"), none⟩]) true none
        ⟨false, some [7], some ⟨str "files/new1", some (str "xyz_abc.pdf"), none⟩⟩ =
        (some (⟨str "files/new1", some (str "xyz_abc.pdf"), none⟩, false),
          [⟨str "files/new1", some (str "xyz_abc.pdf"), none⟩]) := by decide

/-- C6 (amended): matching is case-insensitive and path-stripped, but
containment is accepted in one direction only — the candidate's filename or
URL filename inside the stored display name, or the URL filename / raw URL
inside the lowered store name.  Whenever the store contains an entry
matching the code's predicate, resolution returns the first such handle
with `was_reused = true` and creates no store entry, so running the same
resolution again against the unchanged store never duplicates an entry. -/
theorem C6_reuse_no_new_entry (i : Nat) (url : Str) (files : List GFile)
    (listing : Option (List GFile)) (eff : ResolveEff)
    (hraise : eff.raising = false)
    (hmatch : files.any
      (fileMatches (normBase (resolveFilename i url)) (normBase (beforeQuery url)) url)
      = true) :
    ∃ f, files.find?
        (fileMatches (normBase (resolveFilename i url)) (normBase (beforeQuery url)) url)
        = some f ∧
      resolvePdf i url (some files) true listing eff = (some (f, true), []) := by
  have hsome : (files.find?
      (fileMatches (normBase (resolveFilename i url)) (normBase (beforeQuery url)) url)).isSome := by
    rw [List.find?_isSome]
    exact List.any_eq_true.mp hmatch
  rcases Option.isSome_iff_exists.mp hsome with ⟨f, hf⟩
  refine ⟨f, hf, ?_⟩
  simp only [resolvePdf, hraise, Bool.false_eq_true, if_false,
    check_existing_gemini_file, Bool.not_true, Option.getD_some, hf, reduceIte]

/-- C6: witness for the reuse theorem at a concrete store. -/
theorem C6_witness :
    ∃ f, [(⟨str "files/old1", some (str "guide.pdf"), none⟩ : GFile)].find?
        (fileMatches (normBase (resolveFilename 1 (str "http://h/guide.pdf")))
          (normBase (beforeQuery (str "http://h/guide.pdf"))) (str "http://h/guide.pdf"))
        = some f ∧
      resolvePdf 1 (str "http://h/guide.pdf")
        (some [⟨str "files/old1", some (str "guide.pdf"), none⟩]) true none
        ⟨false, none, none⟩ = (some (f, true), []) :=
  C6_reuse_no_new_entry 1 (str "http://h/guide.pdf")
    [⟨str "files/old1", some (str "guide.pdf"), none⟩] none ⟨false, none, none⟩ rfl (by decide)

/-! ### C9: conversation reset -/

/-- C9: counterexample.  Deletion is keyed by store name: a handle recorded
as a reused auto-upload that is also recorded under `uploaded_files` (the
user uploaded the same document earlier) is deleted by reset's user-file
pass, so a reused auto-uploaded handle is not always left undeleted. -/
theorem C9_counterexample :
    (@reset_conversation Unit Unit
        ⟨[], [], [⟨str "doc.pdf", some ⟨str "files/f1", none, none⟩⟩],
          [⟨some true, some ⟨str "files/f1", none, none⟩⟩]⟩
        [⟨str "files/f1", none, none⟩] ⟨true, fun _ => true⟩).2 = [] := by decide

/-- C9 (amended): on reset, provided no reused auto-uploaded handle shares
its store name with a user-uploaded handle or a non-reused auto-uploaded
handle, every reused auto-uploaded handle survives in the store; every
user-uploaded handle and non-reused auto-uploaded handle (with a handle
present) has a delete attempted, an entry disappearing exactly when its
delete succeeds (individual failures are swallowed and do not affect other
entries); and the session state is always cleared. -/
theorem C9_reset {α β : Type} (st : SessionState α β) (store : List GFile) (eff : ResetEff)
    (hconf : eff.configureOk = true)
    (hdisj : ∀ p ∈ st.auto_uploaded_pdfs, p.was_reused.getD false = true →
      ∀ g, p.gemini_file = some g → g.name ∉ resetDeleteAttempts st) :
    (reset_conversation st store eff).1 = ⟨[], [], [], []⟩ ∧
      (∀ p ∈ st.auto_uploaded_pdfs, p.was_reused.getD false = true →
        ∀ g, p.gemini_file = some g → g ∈ store →
          g ∈ (reset_conversation st store eff).2) ∧
      (∀ g ∈ store, (g ∈ (reset_conversation st store eff).2 ↔
        ¬(g.name ∈ resetDeleteAttempts st ∧ eff.deleteOk g.name = true))) := by
  refine ⟨rfl, ?_, ?_⟩
  · intro p hp hr g hg hstore
    have hnot : g.name ∉ resetDeleteAttempts st := hdisj p hp hr g hg
    simp only [reset_conversation, hconf, if_true]
    rw [List.mem_filter]
    refine ⟨hstore, ?_⟩
    simp [hnot]
  · intro g hg
    simp only [reset_conversation, hconf, if_true]
    rw [List.mem_filter]
    simp only [hg, true_and, Bool.not_eq_true', Bool.and_eq_false_iff,
      List.contains, List.elem_eq_mem, decide_eq_false_iff_not]
    constructor
    · rintro (h | h) ⟨hm, hd⟩
      · exact h hm
      · rw [hd] at h
        cases h
    · intro h
      by_cases hm : g.name ∈ resetDeleteAttempts st
      · cases hd : eff.deleteOk g.name
        · exact Or.inr rfl
        · exact absurd ⟨hm, hd⟩ h
      · exact Or.inl hm

/-- C9: witness for the reset theorem at a concrete session. -/
theorem C9_witness :
    (⟨str "files/a1", none, none⟩ : GFile) ∈
      (@reset_conversation Unit Unit
        ⟨[], [], [], [⟨some true, some ⟨str "files/a1", none, none⟩⟩]⟩
        [⟨str "files/a1", none, none⟩] ⟨true, fun _ => true⟩).2 :=
  (C9_reset ⟨[], [], [], [⟨some true, some ⟨str "files/a1", none, none⟩⟩]⟩
      [⟨str "files/a1", none, none⟩] ⟨true, fun _ => true⟩ rfl
      (by intro p hp hr g hg; simp [resetDeleteAttempts])).2.1
    ⟨some true, some ⟨str "files/a1", none, none⟩⟩ (by simp) rfl
    ⟨str "files/a1", none, none⟩ rfl (by simp)

/-! ### C1/C4/C5: the renumbering engine — counterexamples -/

/-- C1: counterexample.  With bibliography mapping `{11 ↦ 1, 1 ↦ 2}`, the
descending-order sequential replacement first rewrites inline `[11]` to
`[1]`, and the subsequent replacement of `[1]` re-replaces the text just
produced: the original `[11]` ends up as `[2]` instead of its own
sequential number `[1]`, so replacing `[1]` did corrupt the inline
`[11]`. -/
theorem C1_counterexample :
    renumber_inline_citations
        (str "A [11] B [1].\n## Sources\n- [1] X (from search result [11])\n- [2] Y (from search result [1])") =
      str "A [2] B [2].\n## Sources\n- [1] X\n- [2] Y" ∧
      str "A [2] B [2].\n## Sources\n- [1] X\n- [2] Y" ≠
        str "A [1] B [2].\n## Sources\n- [1] X\n- [2] Y" := by decide

/-- C4: counterexample.  The first pass keeps everything after the blank
line that follows the bibliography, but a second pass rebuilds the text
from the lazily-matched bibliography group, which stops at that blank
line: the trailing content is dropped, so the second application differs
from the first. -/
theorem C4_counterexample :
    renumber_inline_citations
        (str "Hello [2].\n## Sources\n- [1] X (from search result [2])\n\nTail") =
      str "Hello [1].\n## Sources\n- [1] X\n\nTail" ∧
      renumber_inline_citations (str "Hello [1].\n## Sources\n- [1] X\n\nTail") =
        str "Hello [1].\n## Sources\n- [1] X" ∧
      str "Hello [1].\n## Sources\n- [1] X" ≠ str "Hello [1].\n## Sources\n- [1] X\n\nTail" := by
  decide

/-- C5: counterexample.  With no annotated bibliography line, the function
is claimed to return the input with (only) annotation fragments removed;
instead the no-mapping branch rebuilds the text from the lazily-matched
bibliography group and drops everything after the blank line that follows
the bibliography block. -/
theorem C5_counterexample :
    renumber_inline_citations (str "Intro.\n## Sources\n- [1] X\n\nTail [3]") =
      str "Intro.\n## Sources\n- [1] X" ∧
      str "Intro.\n## Sources\n- [1] X" ≠ str "Intro.\n## Sources\n- [1] X\n\nTail [3]" := by
  decide

/-! ### Locating the bibliography block -/

theorem containsSub_false_no_occurs {pat s : Str} (h : containsSub pat s = false) :
    ∀ i, ¬ occursAt pat s i := by
  intro i hi
  have h2 := containsSub_iff_exists.mpr ⟨i, hi⟩
  rw [h] at h2
  cases h2

theorem hdr_not_prefix_append {y w : Str} (hy : y ≠ [])
    (hocc : ∀ i, ¬ occursAt hdrSources y i) :
    ¬ (hdrSources <+: y ++ (hdrSources ++ w)) := by
  intro hpre
  have hlen10 : hdrSources.length = 10 := by decide
  have heq : hdrSources = (y ++ (hdrSources ++ w)).take 10 := by
    have h1 := List.prefix_iff_eq_take.mp hpre
    rwa [hlen10] at h1
  by_cases hk : 10 ≤ y.length
  · have htake : (y ++ (hdrSources ++ w)).take 10 = y.take 10 := by
      rw [List.take_append_eq_append_take]
      have h0 : 10 - y.length = 0 := by omega
      simp [h0]
    rw [htake] at heq
    refine hocc 0 ?_
    unfold occursAt
    rw [List.drop_zero, heq]
    exact List.take_prefix 10 y
  · have hk1 : 1 ≤ y.length := by
      cases y with
      | nil => exact absurd rfl hy
      | cons a t => simp
    have htake : (y ++ (hdrSources ++ w)).take 10 =
        y ++ hdrSources.take (10 - y.length) := by
      rw [List.take_append_eq_append_take]
      congr 1
      · exact List.take_of_length_le (by omega)
      · rw [List.take_append_eq_append_take]
        have h0 : 10 - y.length - hdrSources.length = 0 := by omega
        simp [h0]
    rw [htake] at heq
    have hdrop : hdrSources.drop y.length = hdrSources.take (10 - y.length) := by
      conv_lhs => rw [heq]
      exact List.drop_left y _
    have hfin : ∀ k, k < 10 → 0 < k → hdrSources.drop k ≠ hdrSources.take (10 - k) := by
      decide
    exact hfin y.length (by omega) (by omega) hdrop

theorem containsSub_cons_false {pat : Str} {c : Char} {t : Str}
    (h : containsSub pat (c :: t) = false) :
    pat.isPrefixOf (c :: t) = false ∧ containsSub pat t = false := by
  have h1 := h
  unfold containsSub at h1
  exact Bool.or_eq_false_iff.mp h1

theorem findSub_cons (pat : Str) (c : Char) (t : Str) :
    findSub pat (c :: t) =
      if pat.isPrefixOf (c :: t) then some 0 else (findSub pat t).map (· + 1) := rfl

theorem findSub_hdr_append {u w : Str} (hu : containsSub hdrSources u = false) :
    findSub hdrSources (u ++ (hdrSources ++ w)) = some u.length := by
  induction u with
  | nil =>
    rcases hs : hdrSources ++ w with _ | ⟨c, t⟩
    · exfalso
      have h0 := congrArg List.length hs
      rw [List.length_append] at h0
      have h10 : hdrSources.length = 10 := by decide
      simp only [List.length_nil] at h0
      omega
    · rw [List.nil_append, findSub_cons]
      have hpre : hdrSources <+: c :: t := by
        rw [← hs]
        exact List.prefix_append _ _
      rw [if_pos (List.isPrefixOf_iff_prefix.mpr hpre)]
      rfl
  | cons c u ih =>
    obtain ⟨hp, hc⟩ := containsSub_cons_false hu
    have hnp : hdrSources.isPrefixOf ((c :: u) ++ (hdrSources ++ w)) = false := by
      rw [← Bool.not_eq_true, List.isPrefixOf_iff_prefix]
      exact hdr_not_prefix_append (by simp) (containsSub_false_no_occurs hu)
    rw [List.cons_append, findSub_cons]
    rw [if_neg (by rw [← List.cons_append, hnp]; simp), ih hc]
    rfl

theorem afterWsNl_none_of_head {v : Str}
    (hv : ∀ c, v.head? = some c → isPySpace c = false) : afterWsNl v = none := by
  cases v with
  | nil => rfl
  | cons c t =>
    unfold afterWsNl
    rw [hv c rfl]
    rfl

theorem lazyGroup_eq_self {v : Str} (hv2 : containsSub (str "\n\n") v = false)
    (hv3 : v.getLast? ≠ some '\n') : lazyGroup v = v := by
  induction v with
  | nil => rfl
  | cons c t ih =>
    have hcond : ¬(c = '\n' ∧ (t = [] ∨ t.head? = some '\n')) := by
      rintro ⟨rfl, h | h⟩
      · subst h
        exact hv3 rfl
      · obtain ⟨c2, t2, rfl⟩ : ∃ c2 t2, t = c2 :: t2 := by
          cases t with
          | nil => cases h
          | cons c2 t2 => exact ⟨c2, t2, rfl⟩
        simp only [List.head?_cons, Option.some.injEq] at h
        subst h
        have hsn : str "\n\n" = ['\n', '\n'] := by decide
        have hpt : (str "\n\n").isPrefixOf ('\n' :: '\n' :: t2) = true := by
          rw [hsn]
          simp [List.isPrefixOf]
        obtain ⟨hp, -⟩ := containsSub_cons_false hv2
        rw [hp] at hpt
        cases hpt
    unfold lazyGroup
    rw [if_neg hcond]
    congr 1
    cases t with
    | nil => rfl
    | cons c2 t2 =>
      exact ih (containsSub_cons_false hv2).2 (by simpa using hv3)

theorem srcMatchAtHead {v : Str}
    (hv1 : ∀ c, v.head? = some c → isPySpace c = false)
    (hv2 : containsSub (str "\n\n") v = false)
    (hv3 : v.getLast? ≠ some '\n') :
    srcMatchAt (hdrSources ++ '\n' :: v) = some v := by
  unfold srcMatchAt
  rw [if_pos (List.isPrefixOf_iff_prefix.mpr (List.prefix_append _ _))]
  rw [List.drop_left' (by decide)]
  unfold afterWsNl
  rw [afterWsNl_none_of_head hv1]
  rw [if_pos (show isPySpace '\n' = true by decide)]
  rw [if_pos rfl]
  show some (lazyGroup v) = some v
  rw [lazyGroup_eq_self hv2 hv3]

theorem sourcesSearch_cons (c : Char) (t : Str) :
    sourcesSearch (c :: t) =
      match srcMatchAt (c :: t) with
      | some g => some g
      | none => sourcesSearch t := rfl

theorem sourcesSearch_hdr_append {u v : Str} (hu : containsSub hdrSources u = false)
    (hv1 : ∀ c, v.head? = some c → isPySpace c = false)
    (hv2 : containsSub (str "\n\n") v = false)
    (hv3 : v.getLast? ≠ some '\n') :
    sourcesSearch (u ++ (hdrSources ++ '\n' :: v)) = some v := by
  induction u with
  | nil =>
    rw [List.nil_append]
    rcases hs : hdrSources ++ '\n' :: v with _ | ⟨c, t⟩
    · exfalso
      have h0 := congrArg List.length hs
      rw [List.length_append] at h0
      have h10 : hdrSources.length = 10 := by decide
      simp only [List.length_nil] at h0
      omega
    · rw [← hs]
      rw [show hdrSources ++ '\n' :: v = c :: t from hs, sourcesSearch_cons,
        show (c :: t) = hdrSources ++ '\n' :: v from hs.symm,
        srcMatchAtHead hv1 hv2 hv3]
  | cons c u ih =>
    obtain ⟨hp, hc⟩ := containsSub_cons_false hu
    have hnp : hdrSources.isPrefixOf ((c :: u) ++ (hdrSources ++ '\n' :: v)) = false := by
      rw [← Bool.not_eq_true, List.isPrefixOf_iff_prefix]
      exact hdr_not_prefix_append (by simp) (containsSub_false_no_occurs hu)
    rw [List.cons_append, sourcesSearch_cons]
    have hsm : srcMatchAt (c :: (u ++ (hdrSources ++ '\n' :: v))) = none := by
      unfold srcMatchAt
      rw [← List.cons_append, hnp]
      rfl
    rw [hsm]
    exact ih hc

theorem extractMapping_eq_nil {lines : List Str}
    (h : ∀ line ∈ lines, lineMatch line = none) : extractMapping lines = [] := by
  unfold extractMapping
  induction lines with
  | nil => rfl
  | cons l ls ih =>
    rw [List.foldl_cons, h l (by simp)]
    exact ih (fun line hl => h line (by simp [hl]))

/-- Both branch helpers: the shape of `renumber_inline_citations` on a text
`u ++ "## Sources\n" ++ v` whose bibliography block runs to the end. -/
theorem renumber_no_mapping (u v : Str)
    (hu : containsSub hdrSources u = false)
    (hv1 : ∀ c, v.head? = some c → isPySpace c = false)
    (hv2 : containsSub (str "\n\n") v = false)
    (hv3 : v.getLast? ≠ some '\n')
    (hmap : ∀ line ∈ splitNl v, lineMatch line = none) :
    renumber_inline_citations (u ++ (hdrSources ++ '\n' :: v)) =
      u ++ (hdrSources ++ '\n' :: stripAnnotations v) := by
  have hss := sourcesSearch_hdr_append hu hv1 hv2 hv3
  have hfs := @findSub_hdr_append u ('\n' :: v) hu
  have hem := extractMapping_eq_nil hmap
  unfold renumber_inline_citations
  rw [hss]
  simp only [hem, List.isEmpty_nil, if_true]
  rw [hfs]
  show List.take u.length (u ++ (hdrSources ++ '\n' :: v)) ++ hdrSources ++
      '\n' :: stripAnnotations v = _
  rw [List.take_left]
  simp only [List.append_assoc]

theorem renumber_with_mapping (u v : Str) (m : List (Str × Str))
    (hu : containsSub hdrSources u = false)
    (hv1 : ∀ c, v.head? = some c → isPySpace c = false)
    (hv2 : containsSub (str "\n\n") v = false)
    (hv3 : v.getLast? ≠ some '\n')
    (hm : extractMapping (splitNl v) = m) (hne : m ≠ []) :
    renumber_inline_citations (u ++ (hdrSources ++ '\n' :: v)) =
      (sortDescInt (m.map Prod.fst)).foldl (fun b o =>
        match m.lookup o with
        | some sq => if o ≠ sq then replaceAll '[' (o ++ [']']) (citTok sq) b else b
        | none => b) u ++ stripAnnotations (hdrSources ++ '\n' :: v) := by
  have hss := sourcesSearch_hdr_append hu hv1 hv2 hv3
  have hfs := @findSub_hdr_append u ('\n' :: v) hu
  have hemp : m.isEmpty = false := by
    cases m with
    | nil => exact absurd rfl hne
    | cons p ps => rfl
  unfold renumber_inline_citations
  rw [hss]
  simp only [hm, hemp, Bool.false_eq_true, if_false]
  rw [hfs]
  show List.foldl _ (List.take u.length (u ++ (hdrSources ++ '\n' :: v)))
      (sortDescInt (m.map Prod.fst)) ++
      stripAnnotations (List.drop u.length (u ++ (hdrSources ++ '\n' :: v))) = _
  rw [List.take_left, List.drop_left]

/-! ### C5: the no-mapping fallback -/

/-- C5 (amended): when the `## Sources` header is followed directly by a
newline and the bibliography block runs to the end of the text (no blank
line after the header, no trailing newline, block head not whitespace) and
no line of the block matches the annotated pattern, the function returns
the text before the header, the normalised header line, and the block with
only the annotation fragments removed — and never raises.  (In general the
reconstruction drops content after a blank line that follows the block and
normalises the header's trailing whitespace: see the counterexample.) -/
theorem C5_strip_only (u v : Str)
    (hu : containsSub hdrSources u = false)
    (hv1 : ∀ c, v.head? = some c → isPySpace c = false)
    (hv2 : containsSub (str "\n\n") v = false)
    (hv3 : v.getLast? ≠ some '\n')
    (hmap : ∀ line ∈ splitNl v, lineMatch line = none) :
    renumber_inline_citations (u ++ (hdrSources ++ '\n' :: v)) =
      u ++ (hdrSources ++ '\n' :: stripAnnotations v) :=
  renumber_no_mapping u v hu hv1 hv2 hv3 hmap

/-- C5: witness. -/
theorem C5_witness :
    renumber_inline_citations
        (str "Intro [2].\n" ++ (hdrSources ++ '\n' :: str "* [1] X (from search result [2]) y")) =
      str "Intro [2].\n" ++ (hdrSources ++ '\n' :: stripAnnotations (str "* [1] X (from search result [2]) y")) :=
  C5_strip_only (str "Intro [2].\n") (str "* [1] X (from search result [2]) y")
    (by decide) (by decide) (by decide) (by decide) (by decide)

/-! ### C4: idempotence -/

/-- C4 (amended): re-running the function on its own output is the identity
whenever that output's bibliography block is clean — the header followed
directly by a newline, the block running to the end of the text with no
blank line, no trailing newline, no line matching the annotated pattern and
no annotation fragment left.  (Unconditional idempotence fails: when
content follows the bibliography block after a blank line, the second pass
truncates it — see the counterexample.) -/
theorem C4_idempotent_on_clean (t u v : Str)
    (h1 : renumber_inline_citations t = u ++ (hdrSources ++ '\n' :: v))
    (hu : containsSub hdrSources u = false)
    (hv1 : ∀ c, v.head? = some c → isPySpace c = false)
    (hv2 : containsSub (str "\n\n") v = false)
    (hv3 : v.getLast? ≠ some '\n')
    (hmap : ∀ line ∈ splitNl v, lineMatch line = none)
    (hclean : stripAnnotations v = v) :
    renumber_inline_citations (renumber_inline_citations t) =
      renumber_inline_citations t := by
  rw [h1, renumber_no_mapping u v hu hv1 hv2 hv3 hmap, hclean]

/-- C4: witness. -/
theorem C4_witness :
    renumber_inline_citations (renumber_inline_citations
        (str "Hi [2].\n## Sources\n- [1] X (from search result [2])")) =
      renumber_inline_citations (str "Hi [2].\n## Sources\n- [1] X (from search result [2])") :=
  C4_idempotent_on_clean (str "Hi [2].\n## Sources\n- [1] X (from search result [2])")
    (str "Hi [1].\n") (str "- [1] X")
    (by decide) (by decide) (by decide) (by decide) (by decide) (by decide) (by decide)

/-! ### C1: bracket-delimited replacement over token interleavings -/

theorem replaceAllGo_fuel_eq (p : Char) (pat rep : Str) :
    ∀ f1 f2 s, s.length ≤ f1 → s.length ≤ f2 →
      replaceAllGo p pat rep f1 s = replaceAllGo p pat rep f2 s := by
  intro f1
  induction f1 with
  | zero =>
    intro f2 s h1 h2
    have hs : s = [] := List.length_eq_zero.mp (Nat.le_zero.mp h1)
    subst hs
    cases f2 <;> rfl
  | succ a ih =>
    intro f2 s h1 h2
    cases s with
    | nil => cases f2 <;> rfl
    | cons c t =>
      cases f2 with
      | zero => simp at h2
      | succ b =>
        show (if (p :: pat).isPrefixOf (c :: t) then
            rep ++ replaceAllGo p pat rep a (t.drop pat.length)
          else c :: replaceAllGo p pat rep a t) =
          (if (p :: pat).isPrefixOf (c :: t) then
            rep ++ replaceAllGo p pat rep b (t.drop pat.length)
          else c :: replaceAllGo p pat rep b t)
        have ht : t.length ≤ a := by simpa using h1
        have ht2 : t.length ≤ b := by simpa using h2
        have hd : (t.drop pat.length).length ≤ t.length := by
          simp only [List.length_drop]
          omega
        split_ifs with hp
        · rw [ih b (t.drop pat.length) (by omega) (by omega)]
        · rw [ih b t ht ht2]

theorem replaceAll_nil (p : Char) (pat rep : Str) : replaceAll p pat rep [] = [] := rfl

theorem replaceAll_cons_pos {p : Char} {pat : Str} {c : Char} {t : Str}
    (h : (p :: pat).isPrefixOf (c :: t) = true) (rep : Str) :
    replaceAll p pat rep (c :: t) = rep ++ replaceAll p pat rep (t.drop pat.length) := by
  show replaceAllGo p pat rep (t.length + 1) (c :: t) = _
  show (if (p :: pat).isPrefixOf (c :: t) then
      rep ++ replaceAllGo p pat rep t.length (t.drop pat.length)
    else c :: replaceAllGo p pat rep t.length t) = _
  rw [if_pos h]
  unfold replaceAll
  rw [replaceAllGo_fuel_eq p pat rep t.length (t.drop pat.length).length
    (t.drop pat.length) (by simp) (le_refl _)]

theorem replaceAll_cons_neg {p : Char} {pat : Str} {c : Char} {t : Str}
    (h : (p :: pat).isPrefixOf (c :: t) = false) (rep : Str) :
    replaceAll p pat rep (c :: t) = c :: replaceAll p pat rep t := by
  show replaceAllGo p pat rep (t.length + 1) (c :: t) = _
  show (if (p :: pat).isPrefixOf (c :: t) then
      rep ++ replaceAllGo p pat rep t.length (t.drop pat.length)
    else c :: replaceAllGo p pat rep t.length t) = _
  rw [h]
  simp only [Bool.false_eq_true, if_false]
  rfl

theorem replaceAll_skip_seg {pat rep rest : Str} {seg : Str}
    (hseg : ∀ c ∈ seg, c ≠ '[') :
    replaceAll '[' pat rep (seg ++ rest) = seg ++ replaceAll '[' pat rep rest := by
  induction seg with
  | nil => simp
  | cons c s ih =>
    have hc : c ≠ '[' := hseg c (by simp)
    have hnp : ('[' :: pat).isPrefixOf (c :: (s ++ rest)) = false := by
      unfold List.isPrefixOf
      have : ('[' == c) = false := by
        rw [beq_eq_false_iff_ne]
        exact fun h => hc h.symm
      rw [this]
      rfl
    rw [List.cons_append, replaceAll_cons_neg hnp]
    rw [ih (fun c hcmem => hseg c (by simp [hcmem])), List.cons_append]

theorem replaceAll_tok_eq (d rep rest : Str) :
    replaceAll '[' (d ++ [']']) rep (citTok d ++ rest) =
      rep ++ replaceAll '[' (d ++ [']']) rep rest := by
  have hsplit : citTok d ++ rest = '[' :: ((d ++ [']']) ++ rest) := by
    simp [citTok]
  rw [hsplit]
  have hp : ('[' :: (d ++ [']'])).isPrefixOf ('[' :: ((d ++ [']']) ++ rest)) = true := by
    rw [List.isPrefixOf_iff_prefix]
    exact List.cons_prefix_cons.mpr ⟨rfl, List.prefix_append _ _⟩
  rw [replaceAll_cons_pos hp]
  congr 1
  rw [List.drop_left' rfl]

theorem digits_tok_not_prefix :
    ∀ {o d rest : Str}, (∀ c ∈ o, c.isDigit = true) → (∀ c ∈ d, c.isDigit = true) →
      o ≠ d → ¬ ((o ++ [']']) <+: ((d ++ [']']) ++ rest)) := by
  intro o
  induction o with
  | nil =>
    intro d rest _ hd hne hpre
    cases d with
    | nil => exact hne rfl
    | cons dc d' =>
      rw [List.nil_append, List.cons_append, List.cons_append] at hpre
      obtain ⟨h1, -⟩ := List.cons_prefix_cons.mp hpre
      have : (']' : Char).isDigit = true := h1 ▸ hd dc (by simp)
      cases this
  | cons oc o' ih =>
    intro d rest ho hd hne hpre
    cases d with
    | nil =>
      rw [List.cons_append, List.nil_append] at hpre
      obtain ⟨h1, -⟩ := List.cons_prefix_cons.mp hpre
      have : (']' : Char).isDigit = true := h1 ▸ ho oc (by simp)
      cases this
    | cons dc d' =>
      rw [List.cons_append, List.cons_append, List.cons_append] at hpre
      obtain ⟨h1, h2⟩ := List.cons_prefix_cons.mp hpre
      subst h1
      exact ih (fun c hc => ho c (by simp [hc])) (fun c hc => hd c (by simp [hc]))
        (fun h => hne (by rw [h])) h2

theorem replaceAll_tok_ne {o d : Str} (rep rest : Str)
    (ho : ∀ c ∈ o, c.isDigit = true) (hd : ∀ c ∈ d, c.isDigit = true) (hne : o ≠ d) :
    replaceAll '[' (o ++ [']']) rep (citTok d ++ rest) =
      citTok d ++ replaceAll '[' (o ++ [']']) rep rest := by
  have hsplit : citTok d ++ rest = '[' :: (d ++ (']' :: rest)) := by
    simp [citTok]
  rw [hsplit]
  have hnp : ('[' :: (o ++ [']'])).isPrefixOf ('[' :: (d ++ (']' :: rest))) = false := by
    rw [← Bool.not_eq_true, List.isPrefixOf_iff_prefix]
    intro hpre
    have h2 := (List.cons_prefix_cons.mp hpre).2
    have : (d ++ [']']) ++ rest = d ++ (']' :: rest) := by simp
    rw [← this] at h2
    exact digits_tok_not_prefix ho hd hne h2
  rw [replaceAll_cons_neg hnp]
  have hdig : ∀ c ∈ d, c ≠ '[' := by
    intro c hc h
    have := hd c hc
    rw [h] at this
    cases this
  rw [replaceAll_skip_seg hdig]
  have hnb : ('[' :: (o ++ [']'])).isPrefixOf (']' :: rest) = false := by
    unfold List.isPrefixOf
    rfl
  rw [replaceAll_cons_neg hnb]
  simp [citTok]

theorem interleave_cons (s0 : Str) (t seg : Str) (l : List (Str × Str)) :
    interleave s0 ((t, seg) :: l) = s0 ++ (citTok t ++ interleave seg l) := by
  simp [interleave]

theorem replaceAll_interleave {o sq : Str}
    (ho : ∀ c ∈ o, c.isDigit = true) :
    ∀ (s0 : Str) (l : List (Str × Str)),
      (∀ c ∈ s0, c ≠ '[') →
      (∀ p ∈ l, ∀ c ∈ p.2, c ≠ '[') →
      (∀ p ∈ l, ∀ c ∈ p.1, c.isDigit = true) →
      replaceAll '[' (o ++ [']']) (citTok sq) (interleave s0 l) =
        interleave s0 (l.map (fun p => (if p.1 = o then sq else p.1, p.2))) := by
  intro s0 l
  induction l generalizing s0 with
  | nil =>
    intro hs0 _ _
    show replaceAll '[' (o ++ [']']) (citTok sq) (s0 ++ []) = s0 ++ []
    rw [replaceAll_skip_seg hs0, replaceAll_nil]
  | cons p l ih =>
    intro hs0 hsegs htoks
    obtain ⟨t, seg⟩ := p
    rw [interleave_cons, replaceAll_skip_seg hs0]
    by_cases ht : t = o
    · subst ht
      rw [replaceAll_tok_eq]
      rw [ih seg (fun c hc => hsegs (t, seg) (by simp) c hc)
        (fun p hp => hsegs p (by simp [hp]))
        (fun p hp => htoks p (by simp [hp]))]
      simp [interleave_cons]
    · rw [replaceAll_tok_ne (citTok sq) (interleave seg l) ho
        (htoks (t, seg) (by simp)) (fun h => ht h.symm)]
      rw [ih seg (fun c hc => hsegs (t, seg) (by simp) c hc)
        (fun p hp => hsegs p (by simp [hp]))
        (fun p hp => htoks p (by simp [hp]))]
      simp [interleave_cons, ht]

theorem applyKeys_nil (m : List (Str × Str)) (t : Str) : applyKeys m [] t = t := rfl

theorem applyKeys_cons (m : List (Str × Str)) (k : Str) (ks : List Str) (t : Str) :
    applyKeys m (k :: ks) t =
      applyKeys m ks (if t = k then (m.lookup k).getD t else t) := rfl

theorem applyKeys_id_of_not_mem {m : List (Str × Str)} {ks : List Str} {t : Str}
    (h : t ∉ ks) : applyKeys m ks t = t := by
  induction ks with
  | nil => rfl
  | cons k ks ih =>
    rw [applyKeys_cons, if_neg (fun he => h (by simp [he]))]
    exact ih (fun hm => h (by simp [hm]))

theorem foldl_replace_interleave (m : List (Str × Str)) :
    ∀ (ks : List Str) (s0 : Str) (l : List (Str × Str)),
      (∀ c ∈ s0, c ≠ '[') →
      (∀ p ∈ l, ∀ c ∈ p.2, c ≠ '[') →
      (∀ p ∈ l, ∀ c ∈ p.1, c.isDigit = true) →
      (∀ k ∈ ks, ∀ c ∈ k, c.isDigit = true) →
      (∀ k v, m.lookup k = some v → ∀ c ∈ v, c.isDigit = true) →
      ks.foldl (fun b o =>
          match m.lookup o with
          | some sq => if o ≠ sq then replaceAll '[' (o ++ [']']) (citTok sq) b else b
          | none => b) (interleave s0 l) =
        interleave s0 (l.map (fun p => (applyKeys m ks p.1, p.2))) := by
  intro ks
  induction ks with
  | nil =>
    intro s0 l _ _ _ _ _
    simp [applyKeys_nil]
  | cons k ks ih =>
    intro s0 l hs0 hsegs htoks hks hmv
    rw [List.foldl_cons]
    have hstep :
        (match m.lookup k with
          | some sq => if k ≠ sq then
              replaceAll '[' (k ++ [']']) (citTok sq) (interleave s0 l) else interleave s0 l
          | none => interleave s0 l) =
        interleave s0 (l.map (fun p =>
          (if p.1 = k then (m.lookup k).getD p.1 else p.1, p.2))) := by
      rcases hlk : m.lookup k with _ | sq
      · show interleave s0 l = interleave s0 (l.map (fun p =>
          (if p.1 = k then (none : Option Str).getD p.1 else p.1, p.2)))
        have hfun : ∀ p : Str × Str,
            (((if p.1 = k then (none : Option Str).getD p.1 else p.1), p.2) : Str × Str)
              = p := by
          intro p
          rw [Option.getD_none, ite_self]
        rw [List.map_congr_left (fun p _ => hfun p)]
        simp
      · show (if k ≠ sq then
            replaceAll '[' (k ++ [']']) (citTok sq) (interleave s0 l)
          else interleave s0 l) = interleave s0 (l.map (fun p =>
            (if p.1 = k then (some sq).getD p.1 else p.1, p.2)))
        by_cases hksq : k ≠ sq
        · rw [if_pos hksq]
          rw [replaceAll_interleave (hks k (by simp)) s0 l hs0 hsegs htoks]
          simp only [Option.getD_some]
        · push_neg at hksq
          subst hksq
          rw [if_neg (by simp)]
          have hfun : ∀ p : Str × Str,
              (((if p.1 = k then (some k : Option Str).getD p.1 else p.1), p.2) : Str × Str)
                = p := by
            intro p
            rw [Option.getD_some]
            by_cases h : p.1 = k
            · rw [if_pos h, ← h]
            · rw [if_neg h]
          rw [List.map_congr_left (fun p _ => hfun p)]
          simp
    rw [hstep]
    rw [ih s0 _ hs0
      (by
        intro p hp
        rw [List.mem_map] at hp
        obtain ⟨q, hq, rfl⟩ := hp
        exact hsegs q hq)
      (by
        intro p hp
        rw [List.mem_map] at hp
        obtain ⟨q, hq, rfl⟩ := hp
        simp only []
        split_ifs with hqk
        · rcases hlk : m.lookup k with _ | sq
          · simpa [hlk, Option.getD] using htoks q hq
          · simpa [hlk] using hmv k sq hlk
        · exact htoks q hq)
      (fun k' hk' => hks k' (by simp [hk'])) hmv]
    rw [List.map_map]
    apply congrArg
    apply List.map_congr_left
    intro p _
    rfl

theorem mem_insertDescKey {a x : Str} {l : List Str} :
    a ∈ insertDescKey x l ↔ a = x ∨ a ∈ l := by
  induction l with
  | nil => simp [insertDescKey]
  | cons y ys ih =>
    unfold insertDescKey
    split_ifs with h
    · simp
    · simp only [List.mem_cons, ih]
      tauto

theorem mem_sortDescInt {a : Str} {l : List Str} : a ∈ sortDescInt l ↔ a ∈ l := by
  induction l with
  | nil => simp [sortDescInt]
  | cons x xs ih =>
    unfold sortDescInt
    rw [mem_insertDescKey, ih]
    simp

theorem lookup_isSome_iff_mem_keys {m : List (Str × Str)} {t : Str} :
    (m.lookup t).isSome = true ↔ t ∈ m.map Prod.fst := by
  induction m with
  | nil => simp
  | cons p m ih =>
    obtain ⟨k, v⟩ := p
    by_cases hk : k = t
    · subst hk
      simp [List.lookup]
    · have hk2 : ¬ t = k := fun h => hk h.symm
      have hbeq : (t == k) = false := by simpa using hk2
      simp only [List.lookup, hbeq, List.map_cons, List.mem_cons, ih]
      constructor
      · exact Or.inr
      · rintro (h | h)
        · exact absurd h hk2
        · exact h

theorem applyKeys_resolved {m : List (Str × Str)} :
    ∀ {ks : List Str} {t : Str}, ks.Nodup →
      List.Pairwise (fun o o' => m.lookup o ≠ some o') ks →
      applyKeys m ks t = if t ∈ ks then (m.lookup t).getD t else t := by
  intro ks
  induction ks with
  | nil => simp [applyKeys_nil]
  | cons k ks ih =>
    intro t hnd hpw
    rw [applyKeys_cons]
    by_cases ht : t = k
    · subst ht
      rw [if_pos rfl, if_pos (by simp)]
      rcases hlk : m.lookup t with _ | v
      · simp only [hlk, Option.getD_none]
        rw [ih (List.nodup_cons.mp hnd).2 (List.pairwise_cons.mp hpw).2]
        rw [if_neg (List.nodup_cons.mp hnd).1]
      · simp only [hlk, Option.getD_some]
        apply applyKeys_id_of_not_mem
        intro hv
        exact (List.pairwise_cons.mp hpw).1 v hv (by rw [hlk])
    · rw [if_neg ht]
      rw [ih (List.nodup_cons.mp hnd).2 (List.pairwise_cons.mp hpw).2]
      simp [List.mem_cons, ht]

theorem mem_of_lookup {m : List (Str × Str)} {k v : Str} (h : m.lookup k = some v) :
    (k, v) ∈ m := by
  induction m with
  | nil => cases h
  | cons p m ih =>
    obtain ⟨k', v'⟩ := p
    by_cases hk : k = k'
    · subst hk
      have : (k == k) = true := by simp
      simp only [List.lookup, this] at h
      cases h
      simp
    · have hbeq : (k == k') = false := by simpa using hk
      simp only [List.lookup, hbeq] at h
      exact List.mem_cons_of_mem _ (ih h)

/-- C1 (amended): replacement targets are bracket-delimited tokens
`[digits]`, so the replacement of `[1]` never matches inside a literal
`[11]` of the original text, and provided no mapped origNum's seqNum
equals another mapped origNum processed after it (the condition the
counterexample violates: with both `11 ↦ 1` and `1 ↦ 2` mapped, the
descending-order pass re-replaces the output written for `[11]`), every
citation token `[origNum]` in the text before the bibliography is
rewritten to its own `[seqNum]`, tokens with unmapped numbers and all
non-token text are unchanged, and the bibliography section is only
annotation-stripped. -/
theorem C1_tokenwise_replacement (s0 : Str) (l : List (Str × Str)) (v : Str)
    (m : List (Str × Str))
    (hm : extractMapping (splitNl v) = m) (hne : m ≠ [])
    (hu : containsSub hdrSources (interleave s0 l) = false)
    (hv1 : ∀ c, v.head? = some c → isPySpace c = false)
    (hv2 : containsSub (str "\n\n") v = false)
    (hv3 : v.getLast? ≠ some '\n')
    (hs0 : ∀ c ∈ s0, c ≠ '[')
    (hsegs : ∀ p ∈ l, ∀ c ∈ p.2, c ≠ '[')
    (htoks : ∀ p ∈ l, ∀ c ∈ p.1, c.isDigit = true)
    (hks : ∀ k ∈ sortDescInt (m.map Prod.fst), ∀ c ∈ k, c.isDigit = true)
    (hmv : ∀ p ∈ m, ∀ c ∈ p.2, c.isDigit = true)
    (hnd : (sortDescInt (m.map Prod.fst)).Nodup)
    (hpw : List.Pairwise (fun o o' => m.lookup o ≠ some o')
      (sortDescInt (m.map Prod.fst))) :
    renumber_inline_citations (interleave s0 l ++ (hdrSources ++ '\n' :: v)) =
      interleave s0 (l.map (fun p => ((m.lookup p.1).getD p.1, p.2))) ++
        stripAnnotations (hdrSources ++ '\n' :: v) := by
  rw [renumber_with_mapping (interleave s0 l) v m hu hv1 hv2 hv3 hm hne]
  congr 1
  rw [foldl_replace_interleave m (sortDescInt (m.map Prod.fst)) s0 l hs0 hsegs htoks hks
    (fun k w hl => hmv (k, w) (mem_of_lookup hl))]
  apply congrArg
  apply List.map_congr_left
  intro p _
  rw [applyKeys_resolved hnd hpw]
  split_ifs with hmem
  · rfl
  · rcases hlp : m.lookup p.1 with _ | w
    · rfl
    · exfalso
      rw [mem_sortDescInt] at hmem
      exact hmem (lookup_isSome_iff_mem_keys.mp (by rw [hlp]; rfl))

/-- C1: witness.  Body `A [7] and [1].` with bibliography mapping
`{1 ↦ 1, 7 ↦ 2}`: inline `[7]` becomes `[2]`, `[1]` stays `[1]`. -/
theorem C1_witness :
    renumber_inline_citations
        (interleave (str "A ") [(str "7", str " and "), (str "1", str ".")] ++
          (hdrSources ++ '\n' ::
            str "- [1] X (from search result [1])\n- [2] Y (from search result [7])")) =
      interleave (str "A ")
          ([(str "7", str " and "), (str "1", str ".")].map
            (fun p => (([(str "1", str "1"), (str "7", str "2")].lookup p.1).getD p.1, p.2))) ++
        stripAnnotations (hdrSources ++ '\n' ::
          str "- [1] X (from search result [1])\n- [2] Y (from search result [7])") :=
  C1_tokenwise_replacement (str "A ") [(str "7", str " and "), (str "1", str ".")]
    (str "- [1] X (from search result [1])\n- [2] Y (from search result [7])")
    [(str "1", str "1"), (str "7", str "2")]
    (by decide) (by decide) (by decide) (by decide) (by decide) (by decide)
    (by decide) (by decide) (by decide) (by decide) (by decide) (by decide)
    (by decide)

/-! ### C2: evidence-table numbering and degradation on failure -/

theorem enumFromMapFst (l : List SearchResult) :
    ∀ n, (List.enumFrom n l).map Prod.fst = List.range' n l.length := by
  induction l with
  | nil => intro n; rfl
  | cons r rs ih =>
    intro n
    simp only [List.enumFrom_cons, List.map_cons, ih, List.length_cons, List.range'_succ]

theorem searchLoop_text (env : SearchEnv) :
    ∀ (i : Nat) (rs : List SearchResult),
      (searchLoop env i rs).1 =
        ((List.enumFrom i rs).map (fun p => (resultEntry env p.1 p.2).1)).flatten := by
  intro i rs
  induction rs generalizing i with
  | nil => rfl
  | cons r rs ih =>
    simp only [searchLoop, List.enumFrom_cons, List.map_cons, List.flatten_cons, ih]

theorem searchLoop_autos (env : SearchEnv) :
    ∀ (i : Nat) (rs : List SearchResult),
      (searchLoop env i rs).2.1 =
        (List.enumFrom i rs).filterMap (fun p => (resultEntry env p.1 p.2).2.1) := by
  intro i rs
  induction rs generalizing i with
  | nil => rfl
  | cons r rs ih =>
    simp only [searchLoop, List.enumFrom_cons, List.filterMap_cons]
    rcases (resultEntry env i r).2.1 with _ | a
    · exact ih (i + 1)
    · simp [ih (i + 1)]

theorem resultEntry_eq_none (env : SearchEnv) (i : Nat) (r : SearchResult)
    (created : List GFile)
    (h : (if env.auto_upload_pdfs && detect_pdf_url r.url then
        resolvePdf i r.url (searchCache env) env.apiKeyOk env.listing (env.effs i)
      else (none, [])) = (none, created)) :
    resultEntry env i r =
      (('[' :: natDigits i) ++ str "] " ++ r.title ++ ['\n'] ++
        str "    URL: " ++ r.url ++ ['\n'] ++
        dateLines env.fmtDate r ++ contentLine r ++ ['\n'], none, created) := by
  simp only [resultEntry, h]

theorem resultEntry_eq_some (env : SearchEnv) (i : Nat) (r : SearchResult)
    (g : GFile) (wr : Bool) (created : List GFile)
    (h : (if env.auto_upload_pdfs && detect_pdf_url r.url then
        resolvePdf i r.url (searchCache env) env.apiKeyOk env.listing (env.effs i)
      else (none, [])) = (some (g, wr), created)) :
    resultEntry env i r =
      (('[' :: natDigits i) ++ str "] " ++ r.title ++ ['\n'] ++
        str "    URL: " ++ r.url ++ ['\n'] ++
        (if wr then reusedNote else []) ++ pdfNote i ++
        dateLines env.fmtDate r ++ contentLine r ++ ['\n'],
       some ⟨r.url, resolveFilename i r.url, g, wr, i⟩, created) := by
  simp only [resultEntry, h]

/-- C2: for a non-empty result list of length `N`, the tool output is the
fixed header, then the rendered blocks of results `1..N` in input order
(entry `i` begins `[i] title`, and the numbers are exactly `1..N` with no
gaps or repeats), then the citation-rules footer and the out-of-band block;
an entry whose PDF resolution returns nothing — exception in the `try`
block, no match in the store and failed download, or failed upload — is
rendered as a plain web citation (no PDF lines, no ledger record), and the
rendering of every other entry is unaffected. -/
theorem C2_table_numbering (env : SearchEnv) (results : List SearchResult) (query : Str)
    (hne : results ≠ []) :
    dental_guideline_search env results query =
      searchHeader ++
        ((List.enumFrom 1 results).map (fun p => (resultEntry env p.1 p.2).1)).flatten ++
        citationRules ++ autoBlock (searchAutos env results) ∧
    ((List.enumFrom 1 results).map Prod.fst = List.range' 1 results.length) ∧
    (∀ i r, (('[' :: natDigits i) ++ str "] " ++ r.title ++ ['\n'] ++
        str "    URL: " ++ r.url ++ ['\n']) <+: (resultEntry env i r).1) ∧
    (∀ i r created,
      (if env.auto_upload_pdfs && detect_pdf_url r.url then
          resolvePdf i r.url (searchCache env) env.apiKeyOk env.listing (env.effs i)
        else (none, [])) = (none, created) →
      (resultEntry env i r).1 =
        ('[' :: natDigits i) ++ str "] " ++ r.title ++ ['\n'] ++
          str "    URL: " ++ r.url ++ ['\n'] ++
          dateLines env.fmtDate r ++ contentLine r ++ ['\n'] ∧
      (resultEntry env i r).2.1 = none) := by
  refine ⟨?_, enumFromMapFst results 1, ?_, ?_⟩
  · have hie : results.isEmpty = false := by
      cases results with
      | nil => exact absurd rfl hne
      | cons a t => rfl
    unfold dental_guideline_search
    rw [hie]
    simp only [Bool.false_eq_true, if_false, searchLoop_text, searchAutos]
  · intro i r
    rcases hres : (if env.auto_upload_pdfs && detect_pdf_url r.url then
        resolvePdf i r.url (searchCache env) env.apiKeyOk env.listing (env.effs i)
      else (none, [])) with ⟨og, created⟩
    cases og with
    | none =>
      rw [resultEntry_eq_none env i r created hres]
      refine ⟨dateLines env.fmtDate r ++ contentLine r ++ ['\n'], ?_⟩
      simp [List.append_assoc]
    | some gw =>
      rw [resultEntry_eq_some env i r gw.1 gw.2 created (by rw [hres])]
      refine ⟨(if gw.2 then reusedNote else []) ++ pdfNote i ++
        dateLines env.fmtDate r ++ contentLine r ++ ['\n'], ?_⟩
      simp [List.append_assoc]
  · intro i r created h
    rw [resultEntry_eq_none env i r created h]
    exact ⟨rfl, rfl⟩

/-- C2: witness — two results, the second failing PDF resolution. -/
theorem C2_witness :
    dental_guideline_search
        ⟨true, true, some [⟨str "files/g1", some (str "a.pdf"), some (str "uri://1")⟩],
          fun _ => ⟨false, none, none⟩, fun _ => none⟩
        [⟨str "T1", str "http://h/a.pdf", some (str "snip"), none⟩,
         ⟨str "T2", str "http://h/b.pdf", none, none⟩] (str "q") =
      searchHeader ++
        ((List.enumFrom 1
          [⟨str "T1", str "http://h/a.pdf", some (str "snip"), none⟩,
           ⟨str "T2", str "http://h/b.pdf", none, none⟩]).map
          (fun p => (resultEntry
            ⟨true, true, some [⟨str "files/g1", some (str "a.pdf"), some (str "uri://1")⟩],
              fun _ => ⟨false, none, none⟩, fun _ => none⟩ p.1 p.2).1)).flatten ++
        citationRules ++
        autoBlock (searchAutos
          ⟨true, true, some [⟨str "files/g1", some (str "a.pdf"), some (str "uri://1")⟩],
            fun _ => ⟨false, none, none⟩, fun _ => none⟩
          [⟨str "T1", str "http://h/a.pdf", some (str "snip"), none⟩,
           ⟨str "T2", str "http://h/b.pdf", none, none⟩]) :=
  (C2_table_numbering _ _ (str "q") (by simp)).1

/-! ### C10: extraction failure modes -/

theorem containsSub_drop {pat : Str} :
    ∀ {s : Str}, containsSub pat s = false → ∀ n, containsSub pat (s.drop n) = false := by
  intro s
  induction s with
  | nil => intro h n; simpa using h
  | cons c t ih =>
    intro h n
    cases n with
    | zero => exact h
    | succ m => exact ih (containsSub_cons_false h).2 m

theorem uptoCloseTag_none_of_no_close {s : Str}
    (h : containsSub closeTag s = false) : uptoCloseTag s = none := by
  induction s with
  | nil => rfl
  | cons c t ih =>
    obtain ⟨h1, h2⟩ := containsSub_cons_false h
    simp only [uptoCloseTag, h1, Bool.false_eq_true, if_false, ih h2]
    rfl

theorem blockSearch_none_of_no_open {s : Str}
    (h : containsSub openTag s = false) : blockSearch s = none := by
  induction s with
  | nil => rfl
  | cons c t ih =>
    obtain ⟨h1, h2⟩ := containsSub_cons_false h
    simp only [blockSearch, h1, Bool.false_eq_true, if_false, ih h2]

theorem blockSearch_none_of_no_close {s : Str}
    (h : containsSub closeTag s = false) : blockSearch s = none := by
  induction s with
  | nil => rfl
  | cons c t ih =>
    have h2 := (containsSub_cons_false h).2
    have hup : uptoCloseTag ((c :: t).drop openTag.length) = none := by
      apply uptoCloseTag_none_of_no_close
      exact containsSub_drop h openTag.length
    simp only [blockSearch]
    rw [ih h2]
    split
    · next heq =>
      split at heq
      · rw [hup] at heq; exact absurd heq (by simp)
      · exact absurd heq (by simp)
    · rfl

/-- C10: when the delimited block is absent — no opening tag, or no
closing tag, or no opening tag followed by a closing tag (`re.search`
finds no match) — or when the block is present but its payload is not
valid JSON (`json.loads` raises), `extract_auto_uploaded_pdfs` returns
the empty list; being a total function, it never raises. -/
theorem C10_extract_failure_empty (s : Str) (files : Option (List GFile)) :
    (containsSub openTag s = false → extract_auto_uploaded_pdfs s files = .jarr []) ∧
    (containsSub closeTag s = false → extract_auto_uploaded_pdfs s files = .jarr []) ∧
    (blockSearch s = none → extract_auto_uploaded_pdfs s files = .jarr []) ∧
    (∀ p, blockSearch s = some p → jsonParse p = none →
      extract_auto_uploaded_pdfs s files = .jarr []) := by
  refine ⟨?_, ?_, ?_, ?_⟩
  · intro h
    simp only [extract_auto_uploaded_pdfs, blockSearch_none_of_no_open h]
  · intro h
    simp only [extract_auto_uploaded_pdfs, blockSearch_none_of_no_close h]
  · intro h
    simp only [extract_auto_uploaded_pdfs, h]
  · intro p hb hj
    simp only [extract_auto_uploaded_pdfs, hb, hj]

/-- C10: witness — a tag-free string, a string with an unclosed block, and
a closed block holding invalid JSON. -/
theorem C10_witness :
    (containsSub openTag (str "no tags here") = false ∧
      extract_auto_uploaded_pdfs (str "no tags here") none = .jarr []) ∧
    (containsSub closeTag (str "x<AUTO_UPLOADED_PDFS>[1,2]") = false ∧
      extract_auto_uploaded_pdfs (str "x<AUTO_UPLOADED_PDFS>[1,2]") none = .jarr []) ∧
    (blockSearch (str "a<AUTO_UPLOADED_PDFS>bogus</AUTO_UPLOADED_PDFS>b") =
        some (str "bogus") ∧
      jsonParse (str "bogus") = none ∧
      extract_auto_uploaded_pdfs (str "a<AUTO_UPLOADED_PDFS>bogus</AUTO_UPLOADED_PDFS>b")
        (some []) = .jarr []) :=
  ⟨⟨by decide, (C10_extract_failure_empty (str "no tags here") none).1 (by decide)⟩,
   ⟨by decide, (C10_extract_failure_empty (str "x<AUTO_UPLOADED_PDFS>[1,2]") none).2.1
      (by decide)⟩,
   ⟨by rfl, by rfl,
    (C10_extract_failure_empty (str "a<AUTO_UPLOADED_PDFS>bogus</AUTO_UPLOADED_PDFS>b")
      (some [])).2.2.2 (str "bogus") (by rfl) (by rfl)⟩⟩

/-! ### Round-trip lemmas -/

theorem skipWs_cons_neg {c : Char} {t : Str} (h : isJsonWs c = false) :
    skipWs (c :: t) = c :: t :=
  List.dropWhile_cons_of_neg (by simp [h])

theorem skipWs_cons_pos {c : Char} {t : Str} (h : isJsonWs c = true) :
    skipWs (c :: t) = skipWs t :=
  List.dropWhile_cons_of_pos (by simp [h])

theorem isPrefixOf_cons_neq {a b : Char} {l t : Str} (h : (a == b) = false) :
    List.isPrefixOf (a :: l) (b :: t) = false := by
  simp only [List.isPrefixOf, h, Bool.false_and]

theorem digit_char_facts : ∀ n : Nat, n < 10 →
    (Char.ofNat (48 + n)).isDigit = true ∧
    (Char.ofNat (48 + n)).toNat = 48 + n ∧
    isJsonWs (Char.ofNat (48 + n)) = false := by
  decide

theorem natDigitsGo_all_digit : ∀ f n, ∀ c ∈ natDigitsGo f n, c.isDigit = true := by
  intro f
  induction f with
  | zero => intro n c hc; simp [natDigitsGo] at hc
  | succ f ih =>
    intro n c hc
    simp only [natDigitsGo] at hc
    split at hc
    · next h =>
      simp only [List.mem_singleton] at hc
      subst hc
      exact (digit_char_facts n h).1
    · next h =>
      rcases List.mem_append.mp hc with h1 | h1
      · exact ih _ c h1
      · simp only [List.mem_singleton] at h1
        subst h1
        exact (digit_char_facts (n % 10) (Nat.mod_lt _ (by omega))).1

theorem natDigitsGo_ne_nil : ∀ f n, 0 < f → natDigitsGo f n ≠ [] := by
  intro f n hf
  cases f with
  | zero => omega
  | succ f =>
    simp only [natDigitsGo]
    split
    · simp
    · simp

theorem digitsVal_append_one (xs : Str) (c : Char) :
    digitsVal (xs ++ [c]) = digitsVal xs * 10 + (c.toNat - 48) := by
  simp [digitsVal, List.foldl_append]

theorem digitsVal_natDigitsGo : ∀ f n, n < 10 ^ f → digitsVal (natDigitsGo f n) = n := by
  intro f
  induction f with
  | zero => intro n h; simp at h; subst h; rfl
  | succ f ih =>
    intro n h
    simp only [natDigitsGo]
    split
    · next h10 =>
      simp [digitsVal, (digit_char_facts n h10).2.1]
    · next h10 =>
      rw [digitsVal_append_one, ih (n / 10) ?_, (digit_char_facts (n % 10)
        (Nat.mod_lt _ (by omega))).2.1]
      · omega
      · rw [Nat.div_lt_iff_lt_mul (by omega)]
        calc n < 10 ^ (f + 1) := h
        _ = 10 ^ f * 10 := by rw [Nat.pow_succ]

theorem natDigitsGo_head_ne_zero : ∀ f n, n < 10 ^ f → 1 ≤ n →
    (natDigitsGo f n).head? ≠ some '0' := by
  intro f
  induction f with
  | zero => intro n h h1; omega
  | succ f ih =>
    intro n h h1
    simp only [natDigitsGo]
    split
    · next h10 =>
      have : ∀ m : Nat, 1 ≤ m → m < 10 → Char.ofNat (48 + m) ≠ '0' := by decide
      simp [this n h1 h10]
    · next h10 =>
      have hf1 : 0 < f := by
        by_contra hf
        have : f = 0 := by omega
        subst this
        simp at h
        omega
      have hdiv : n / 10 < 10 ^ f := by
        rw [Nat.div_lt_iff_lt_mul (by omega)]
        calc n < 10 ^ (f + 1) := h
        _ = 10 ^ f * 10 := by rw [Nat.pow_succ]
      have hne := natDigitsGo_ne_nil f (n / 10) hf1
      have hh : (natDigitsGo f (n / 10) ++ [Char.ofNat (48 + n % 10)]).head? =
          (natDigitsGo f (n / 10)).head? := by
        cases hgo : natDigitsGo f (n / 10) with
        | nil => exact absurd hgo hne
        | cons a t => rfl
      rw [hh]
      exact ih (n / 10) hdiv (by omega)

theorem n_lt_ten_pow : ∀ n : Nat, n < 10 ^ (n + 1) := by
  intro n
  calc n < 10 ^ n := Nat.lt_pow_self (by omega) n
  _ ≤ 10 ^ (n + 1) := Nat.pow_le_pow_right (by omega) (by omega)

theorem natDigits_all_digit (n : Nat) : ∀ c ∈ natDigits n, c.isDigit = true :=
  natDigitsGo_all_digit (n + 1) n

theorem natDigits_ne_nil (n : Nat) : natDigits n ≠ [] :=
  natDigitsGo_ne_nil (n + 1) n (by omega)

theorem digitsVal_natDigits (n : Nat) : digitsVal (natDigits n) = n :=
  digitsVal_natDigitsGo (n + 1) n (n_lt_ten_pow n)

theorem takeWhile_all_append {p : Char → Bool} {d r : Str}
    (hd : ∀ c ∈ d, p c = true) (hr : ∀ c, r.head? = some c → p c = false) :
    (d ++ r).takeWhile p = d ∧ (d ++ r).drop d.length = r := by
  constructor
  · induction d with
    | nil =>
      cases r with
      | nil => rfl
      | cons c t =>
        simp only [List.nil_append]
        exact List.takeWhile_cons_of_neg (by simp [hr c rfl])
    | cons a d2 ih =>
      simp only [List.cons_append]
      rw [List.takeWhile_cons_of_pos (hd a (by simp))]
      rw [ih (fun c hc => hd c (by simp [hc]))]
  · exact List.drop_left d r

theorem parseJNat_natDigits (n : Nat) (r : Str)
    (hr : ∀ c, r.head? = some c → c.isDigit = false) :
    parseJNat (natDigits n ++ r) = some (n, r) := by
  obtain ⟨ht, hd⟩ := takeWhile_all_append (natDigits_all_digit n) hr
  have hlz : ¬ ((natDigits n).head? = some '0' ∧ 1 < (natDigits n).length) := by
    rintro ⟨hh, hl⟩
    rcases Nat.lt_or_ge n 1 with h1 | h1
    · have hn0 : n = 0 := by omega
      subst hn0
      have h0 : natDigits 0 = ['0'] := rfl
      rw [h0] at hl
      simp at hl
    · exact natDigitsGo_head_ne_zero (n + 1) n (n_lt_ten_pow n) h1 hh
  unfold parseJNat
  rw [ht]
  split
  · next heq => exact absurd heq (natDigits_ne_nil n)
  · next heq => rw [if_neg hlz, digitsVal_natDigits, hd]

theorem parseJNum_natDigits (n : Nat) (r : Str)
    (hr : ∀ c, r.head? = some c → c.isDigit = false)
    (hr2 : r.head? ≠ some '.' ∧ r.head? ≠ some 'e' ∧ r.head? ≠ some 'E') :
    parseJNum (natDigits n ++ r) = some ((n : Int), r) := by
  unfold parseJNum
  split
  · next t heq =>
    cases hnd : natDigits n with
    | nil => exact absurd hnd (natDigits_ne_nil n)
    | cons c0 t0 =>
      rw [hnd] at heq
      simp only [List.cons_append, List.cons.injEq] at heq
      have hc0 : c0.isDigit = true := by
        apply natDigits_all_digit n
        rw [hnd]
        simp
      rw [heq.1] at hc0
      simp [Char.isDigit] at hc0
  · simp only [parseJNat_natDigits n r hr]
    rw [if_neg (by push_neg; simp [hr2.1, hr2.2.1, hr2.2.2])]

theorem hexVal_hexDigitChar : ∀ d : Nat, d < 16 → hexVal (hexDigitChar d) = some d := by
  decide

theorem parseHex4_toHex4 (n : Nat) (r : Str) (h : n < 65536) :
    parseHex4 (toHex4 n ++ r) = some (n, r) := by
  have h1 := hexVal_hexDigitChar (n / 4096 % 16) (Nat.mod_lt _ (by omega))
  have h2 := hexVal_hexDigitChar (n / 256 % 16) (Nat.mod_lt _ (by omega))
  have h3 := hexVal_hexDigitChar (n / 16 % 16) (Nat.mod_lt _ (by omega))
  have h4 := hexVal_hexDigitChar (n % 16) (Nat.mod_lt _ (by omega))
  have hn : ((n / 4096 % 16 * 16 + n / 256 % 16) * 16 + n / 16 % 16) * 16 + n % 16 = n := by
    omega
  simp only [toHex4, List.cons_append, List.nil_append, parseHex4, h1, h2, h3, h4, hn]

theorem char_toNat_lt (c : Char) : c.toNat < 1114112 := by
  have hv := c.valid
  have he : c.toNat = c.val.toNat := rfl
  rcases hv with h | ⟨h1, h2⟩ <;> omega

theorem char_not_surrogate (c : Char) : c.toNat < 55296 ∨ 57343 < c.toNat := by
  have hv := c.valid
  have he : c.toNat = c.val.toNat := rfl
  rcases hv with h | ⟨h1, h2⟩ <;> omega

theorem parseStrBody_u_bmp (f n : Nat) (T : Str)
    (hn : n < 65536) (hs1 : ¬ (55296 ≤ n ∧ n ≤ 56319))
    (hs2 : ¬ (56320 ≤ n ∧ n ≤ 57343)) :
    parseStrBody (f + 1) ('\\' :: 'u' :: (toHex4 n ++ T)) =
      (parseStrBody f T).map (fun p => (Char.ofNat n :: p.1, p.2)) := by
  have hx := parseHex4_toHex4 n T hn
  simp [parseStrBody, hx, hs1, hs2]

theorem parseStrBody_u_pair (f hi lo : Nat) (T : Str)
    (hhi : 55296 ≤ hi ∧ hi ≤ 56319) (hlo : 56320 ≤ lo ∧ lo ≤ 57343) :
    parseStrBody (f + 1)
        ('\\' :: 'u' :: (toHex4 hi ++ ('\\' :: 'u' :: (toHex4 lo ++ T)))) =
      (parseStrBody f T).map (fun p =>
        (Char.ofNat (65536 + (hi - 55296) * 1024 + (lo - 56320)) :: p.1, p.2)) := by
  have hx1 := parseHex4_toHex4 hi ('\\' :: 'u' :: (toHex4 lo ++ T)) (by omega)
  have hx2 := parseHex4_toHex4 lo T (by omega)
  simp [parseStrBody, hx1, hx2, hhi, hlo]


theorem parseStrBody_rt : ∀ (s : Str) (fuel : Nat) (rest : Str),
    s.length + 1 ≤ fuel →
    parseStrBody fuel ((s.map escChar).flatten ++ '"' :: rest) = some (s, rest) := by
  intro s
  induction s with
  | nil =>
    intro fuel rest h
    obtain ⟨f, rfl⟩ : ∃ f, fuel = f + 1 := ⟨fuel - 1, by omega⟩
    simp only [List.map_nil, List.flatten_nil, List.nil_append]
    simp [parseStrBody]
  | cons c s2 ih =>
    intro fuel rest h
    obtain ⟨f, rfl⟩ : ∃ f, fuel = f + 1 := ⟨fuel - 1, by omega⟩
    have hf : s2.length + 1 ≤ f := by
      simp only [List.length_cons] at h
      omega
    have ihf := ih f rest hf
    simp only [List.map_cons, List.flatten_cons, List.append_assoc]
    by_cases h1 : c = '"'
    · subst h1
      have he : escChar '"' = ['\\', '"'] := rfl
      rw [he]
      simp [parseStrBody, ihf]
    · by_cases h2 : c = '\\'
      · subst h2
        have he : escChar '\\' = ['\\', '\\'] := rfl
        rw [he]
        simp [parseStrBody, ihf]
      · by_cases h3 : c = '\n'
        · subst h3
          have he : escChar '\n' = ['\\', 'n'] := rfl
          rw [he]
          simp [parseStrBody, ihf]
        · by_cases h4 : c = '\r'
          · subst h4
            have he : escChar '\r' = ['\\', 'r'] := rfl
            rw [he]
            simp [parseStrBody, ihf]
          · by_cases h5 : c = '\t'
            · subst h5
              have he : escChar '\t' = ['\\', 't'] := rfl
              rw [he]
              simp [parseStrBody, ihf]
            · by_cases h6 : c = '\x08'
              · subst h6
                have he : escChar '\x08' = ['\\', 'b'] := rfl
                rw [he]
                simp [parseStrBody, ihf]
              · by_cases h7 : c = '\x0c'
                · subst h7
                  have he : escChar '\x0c' = ['\\', 'f'] := rfl
                  rw [he]
                  simp [parseStrBody, ihf]
                · by_cases h8 : c.toNat < 32
                  · have he : escChar c = '\\' :: 'u' :: toHex4 c.toNat := by
                      unfold escChar
                      rw [if_neg h1, if_neg h2, if_neg h3, if_neg h4, if_neg h5,
                        if_neg h6, if_neg h7, if_pos h8]
                    rw [he]
                    simp only [List.cons_append]
                    rw [parseStrBody_u_bmp f c.toNat _ (by omega) (by omega) (by omega)]
                    simp [ihf, Char.ofNat_toNat]
                  · by_cases h9 : c.toNat < 127
                    · have he : escChar c = [c] := by
                        unfold escChar
                        rw [if_neg h1, if_neg h2, if_neg h3, if_neg h4, if_neg h5,
                          if_neg h6, if_neg h7, if_neg h8, if_pos h9]
                      rw [he]
                      have hlt : ¬ (c.toNat < 32) := h8
                      simp [parseStrBody, h1, h2, hlt, ihf]
                    · by_cases h10 : c.toNat < 65536
                      · have he : escChar c = '\\' :: 'u' :: toHex4 c.toNat := by
                          unfold escChar
                          rw [if_neg h1, if_neg h2, if_neg h3, if_neg h4, if_neg h5,
                            if_neg h6, if_neg h7, if_neg h8, if_neg h9, if_pos h10]
                        rw [he]
                        have hns := char_not_surrogate c
                        simp only [List.cons_append]
                        rw [parseStrBody_u_bmp f c.toNat _ (by omega) (by omega) (by omega)]
                        simp [ihf, Char.ofNat_toNat]
                      · have he : escChar c =
                            ('\\' :: 'u' :: toHex4 (55296 + (c.toNat - 65536) / 1024)) ++
                            ('\\' :: 'u' :: toHex4 (56320 + (c.toNat - 65536) % 1024)) := by
                          unfold escChar
                          rw [if_neg h1, if_neg h2, if_neg h3, if_neg h4, if_neg h5,
                            if_neg h6, if_neg h7, if_neg h8, if_neg h9, if_neg h10]
                        rw [he]
                        have hcl := char_toNat_lt c
                        simp only [List.cons_append, List.append_assoc]
                        rw [parseStrBody_u_pair f (55296 + (c.toNat - 65536) / 1024)
                          (56320 + (c.toNat - 65536) % 1024) _ (by omega) (by omega)]
                        have hrec : 65536 + (55296 + (c.toNat - 65536) / 1024 - 55296) * 1024 +
                            (56320 + (c.toNat - 65536) % 1024 - 56320) = c.toNat := by
                          omega
                        rw [hrec, Char.ofNat_toNat, ihf]
                        rfl

theorem parseJVal_ws {c : Char} (hc : isJsonWs c = true) (fuel : Nat) (s : Str) :
    parseJVal fuel (c :: s) = parseJVal fuel s := by
  cases fuel with
  | zero => rfl
  | succ f => simp only [parseJVal, skipWs_cons_pos hc]

theorem parseJVal_str (s : Str) (fuel : Nat) (rest : Str)
    (h : s.length + 2 ≤ fuel) :
    parseJVal fuel (jstrDump s ++ rest) = some (.jstr s, rest) := by
  obtain ⟨f, rfl⟩ : ∃ f, fuel = f + 1 := ⟨fuel - 1, by omega⟩
  have hb : parseStrBody f ((s.map escChar).flatten ++ '"' :: rest) = some (s, rest) :=
    parseStrBody_rt s f rest (by omega)
  simp only [jstrDump, List.cons_append, List.append_assoc, List.singleton_append]
  simp [parseJVal, skipWs_cons_neg (show isJsonWs '"' = false by decide),
    isPrefixOf_cons_neq (show ('n' == '"') = false by decide),
    isPrefixOf_cons_neq (show ('t' == '"') = false by decide),
    isPrefixOf_cons_neq (show ('f' == '"') = false by decide),
    str, hb]

theorem parseJVal_null (fuel : Nat) (rest : Str) (h : 1 ≤ fuel) :
    parseJVal fuel (str "null" ++ rest) = some (.jnull, rest) := by
  obtain ⟨f, rfl⟩ : ∃ f, fuel = f + 1 := ⟨fuel - 1, by omega⟩
  simp [parseJVal, str, skipWs_cons_neg (show isJsonWs 'n' = false by decide)]

theorem parseJVal_bool (b : Bool) (fuel : Nat) (rest : Str) (h : 1 ≤ fuel) :
    parseJVal fuel ((if b then str "true" else str "false") ++ rest) =
      some (.jbool b, rest) := by
  obtain ⟨f, rfl⟩ : ∃ f, fuel = f + 1 := ⟨fuel - 1, by omega⟩
  cases b with
  | true =>
    simp [parseJVal, str, skipWs_cons_neg (show isJsonWs 't' = false by decide)]
  | false =>
    simp [parseJVal, str, skipWs_cons_neg (show isJsonWs 'f' = false by decide)]

theorem digit_class (c : Char) (hc : c.isDigit = true) :
    isJsonWs c = false ∧ ('n' == c) = false ∧ ('t' == c) = false ∧
    ('f' == c) = false ∧ c ≠ '"' ∧ c ≠ '[' ∧ c ≠ '\x7b' ∧ c ≠ '-' := by
  refine ⟨?_, ?_, ?_, ?_, ?_, ?_, ?_, ?_⟩
  · cases hb : isJsonWs c with
    | false => rfl
    | true =>
      simp only [isJsonWs, Bool.or_eq_true, beq_iff_eq] at hb
      rcases hb with ((h1 | h1) | h1) | h1 <;> first
        | (subst h1; exact absurd hc (by decide))
        | exact absurd hc (by decide)
  · cases hb : ('n' == c) with
    | false => rfl
    | true =>
      rw [← eq_of_beq hb] at hc
      exact absurd hc (by decide)
  · cases hb : ('t' == c) with
    | false => rfl
    | true =>
      rw [← eq_of_beq hb] at hc
      exact absurd hc (by decide)
  · cases hb : ('f' == c) with
    | false => rfl
    | true =>
      rw [← eq_of_beq hb] at hc
      exact absurd hc (by decide)
  · intro h1
    subst h1
    exact absurd hc (by decide)
  · intro h1
    subst h1
    exact absurd hc (by decide)
  · intro h1
    subst h1
    exact absurd hc (by decide)
  · intro h1
    subst h1
    exact absurd hc (by decide)

theorem parseJVal_nat (n : Nat) (fuel : Nat) (rest : Str) (h : 1 ≤ fuel)
    (hr : ∀ c, rest.head? = some c → c.isDigit = false)
    (hr2 : rest.head? ≠ some '.' ∧ rest.head? ≠ some 'e' ∧ rest.head? ≠ some 'E') :
    parseJVal fuel (natDigits n ++ rest) = some (.jint (n : Int), rest) := by
  obtain ⟨f, rfl⟩ : ∃ f, fuel = f + 1 := ⟨fuel - 1, by omega⟩
  have hjn := parseJNum_natDigits n rest hr hr2
  cases hnd : natDigits n with
  | nil => exact absurd hnd (natDigits_ne_nil n)
  | cons c0 t0 =>
    have hc0 : c0.isDigit = true := by
      apply natDigits_all_digit n
      rw [hnd]
      simp
    obtain ⟨hws, hn2, ht2, hf2, hq, hlb, hob, hdash⟩ := digit_class c0 hc0
    rw [hnd] at hjn
    simp only [List.cons_append] at hjn ⊢
    have hnull : (str "null").isPrefixOf (c0 :: (t0 ++ rest)) = false := by
      rw [show str "null" = 'n' :: ['u', 'l', 'l'] from rfl]
      exact isPrefixOf_cons_neq hn2
    have htrue : (str "true").isPrefixOf (c0 :: (t0 ++ rest)) = false := by
      rw [show str "true" = 't' :: ['r', 'u', 'e'] from rfl]
      exact isPrefixOf_cons_neq ht2
    have hfalse : (str "false").isPrefixOf (c0 :: (t0 ++ rest)) = false := by
      rw [show str "false" = 'f' :: ['a', 'l', 's', 'e'] from rfl]
      exact isPrefixOf_cons_neq hf2
    simp only [parseJVal, skipWs_cons_neg hws, hnull, htrue, hfalse,
      Bool.false_eq_true, if_false]
    split
    · next heq =>
      rw [List.cons.injEq] at heq
      exact absurd heq.1 hq
    · next heq =>
      rw [List.cons.injEq] at heq
      exact absurd heq.1 hlb
    · next heq =>
      rw [List.cons.injEq] at heq
      exact absurd heq.1 hob
    · rw [hjn]
      rfl

theorem parseJObj_ws {c : Char} (hc : isJsonWs c = true) (fuel : Nat)
    (acc : List (Str × JVal)) (s : Str) :
    parseJObj fuel acc (c :: s) = parseJObj fuel acc s := by
  cases fuel with
  | zero => rfl
  | succ f => simp only [parseJObj, skipWs_cons_pos hc]

theorem parseJArr_ws {c : Char} (hc : isJsonWs c = true) (fuel : Nat) (s : Str) :
    parseJArr fuel (c :: s) = parseJArr fuel s := by
  cases fuel with
  | zero => rfl
  | succ f => simp only [parseJArr, parseJVal_ws hc]

theorem parseJObj_step_comma (g : Nat) (acc : List (Str × JVal)) (k : Str)
    (vt : Str) (v : JVal) (tl : Str)
    (hk : k.length + 1 ≤ g)
    (hv : parseJVal g (vt ++ (str ", " ++ tl)) = some (v, str ", " ++ tl)) :
    parseJObj (g + 1) acc (jstrDump k ++ (str ": " ++ (vt ++ (str ", " ++ tl)))) =
      parseJObj g (jdictUpd acc k v) tl := by
  have hb : parseStrBody g ((k.map escChar).flatten ++
      '"' :: (str ": " ++ (vt ++ (str ", " ++ tl)))) =
      some (k, str ": " ++ (vt ++ (str ", " ++ tl))) :=
    parseStrBody_rt k g _ hk
  have hv2 : parseJVal g (' ' :: (vt ++ (str ", " ++ tl))) =
      some (v, str ", " ++ tl) := by
    rw [parseJVal_ws (by decide)]
    exact hv
  have hcolon : skipWs (str ": " ++ (vt ++ (str ", " ++ tl))) =
      ':' :: (' ' :: (vt ++ (str ", " ++ tl))) := by
    rw [show str ": " ++ (vt ++ (str ", " ++ tl)) =
      ':' :: (' ' :: (vt ++ (str ", " ++ tl))) from rfl]
    exact skipWs_cons_neg (by decide)
  have hcm : skipWs (str ", " ++ tl) = ',' :: (' ' :: tl) := by
    rw [show str ", " ++ tl = ',' :: (' ' :: tl) from rfl]
    exact skipWs_cons_neg (by decide)
  have hob : parseJObj g (jdictUpd acc k v) (' ' :: tl) =
      parseJObj g (jdictUpd acc k v) tl := parseJObj_ws (by decide) g _ tl
  simp only [jstrDump, List.cons_append, List.nil_append, List.append_assoc,
    List.singleton_append]
  simp only [parseJObj, skipWs_cons_neg (show isJsonWs '"' = false by decide), hb,
    hcolon, hv2, hcm, hob]

theorem parseJObj_step_close (g : Nat) (acc : List (Str × JVal)) (k : Str)
    (vt : Str) (v : JVal) (r4 : Str)
    (hk : k.length + 1 ≤ g)
    (hv : parseJVal g (vt ++ ('\x7d' :: r4)) = some (v, '\x7d' :: r4)) :
    parseJObj (g + 1) acc (jstrDump k ++ (str ": " ++ (vt ++ ('\x7d' :: r4)))) =
      some (jdictUpd acc k v, r4) := by
  have hb : parseStrBody g ((k.map escChar).flatten ++
      '"' :: (str ": " ++ (vt ++ ('\x7d' :: r4)))) =
      some (k, str ": " ++ (vt ++ ('\x7d' :: r4))) :=
    parseStrBody_rt k g _ hk
  have hv2 : parseJVal g (' ' :: (vt ++ ('\x7d' :: r4))) = some (v, '\x7d' :: r4) := by
    rw [parseJVal_ws (by decide)]
    exact hv
  have hcolon : skipWs (str ": " ++ (vt ++ ('\x7d' :: r4))) =
      ':' :: (' ' :: (vt ++ ('\x7d' :: r4))) := by
    rw [show str ": " ++ (vt ++ ('\x7d' :: r4)) =
      ':' :: (' ' :: (vt ++ ('\x7d' :: r4))) from rfl]
    exact skipWs_cons_neg (by decide)
  have hcm : skipWs ('\x7d' :: r4) = '\x7d' :: r4 := skipWs_cons_neg (by decide)
  simp only [jstrDump, List.cons_append, List.nil_append, List.append_assoc,
    List.singleton_append]
  simp only [parseJObj, skipWs_cons_neg (show isJsonWs '"' = false by decide), hb,
    hcolon, hv2, hcm]




theorem pdfAccChain (v1 v2 v3 v4 v5 : JVal) :
    jdictUpd (jdictUpd (jdictUpd (jdictUpd (jdictUpd [] (str "url") v1)
      (str "filename") v2) (str "uri") v3) (str "citation_number") v4)
      (str "was_reused") v5 =
      [(str "url", v1), (str "filename", v2), (str "uri", v3),
       (str "citation_number", v4), (str "was_reused", v5)] := rfl

theorem head_comma_facts (tl : Str) :
    (∀ c, (str ", " ++ tl).head? = some c → c.isDigit = false) ∧
    (str ", " ++ tl).head? ≠ some '.' ∧ (str ", " ++ tl).head? ≠ some 'e' ∧
    (str ", " ++ tl).head? ≠ some 'E' := by
  have hh : (str ", " ++ tl).head? = some ',' := rfl
  refine ⟨?_, ?_, ?_, ?_⟩
  · intro c hc
    rw [hh, Option.some.injEq] at hc
    subst hc
    decide
  all_goals (rw [hh]; intro hc; rw [Option.some.injEq] at hc; exact absurd hc (by decide))

theorem skipWs_jstrDump (k : Str) (X : Str) :
    skipWs (jstrDump k ++ X) = '"' :: (((k.map escChar).flatten ++ ['"']) ++ X) := by
  rw [show jstrDump k ++ X = '"' :: (((k.map escChar).flatten ++ ['"']) ++ X) from rfl]
  exact skipWs_cons_neg (by decide)

theorem null_npre_brace (T : Str) : (str "null").isPrefixOf ('\x7b' :: T) = false := by
  rw [show str "null" = 'n' :: ['u', 'l', 'l'] from rfl]
  exact isPrefixOf_cons_neq (by decide)

theorem true_npre_brace (T : Str) : (str "true").isPrefixOf ('\x7b' :: T) = false := by
  rw [show str "true" = 't' :: ['r', 'u', 'e'] from rfl]
  exact isPrefixOf_cons_neq (by decide)

theorem false_npre_brace (T : Str) : (str "false").isPrefixOf ('\x7b' :: T) = false := by
  rw [show str "false" = 'f' :: ['a', 'l', 's', 'e'] from rfl]
  exact isPrefixOf_cons_neq (by decide)

theorem parseJVal_optUri (o : Option Str) (fuel : Nat) (rest : Str)
    (h : uriLen o + 2 ≤ fuel) :
    parseJVal fuel (jOptUriDump o ++ rest) = some (jOptUriVal o, rest) := by
  cases o with
  | none => exact parseJVal_null fuel rest (by omega)
  | some u => exact parseJVal_str u fuel rest (by simpa [uriLen] using h)

theorem parseJVal_pdfObj (a : AutoPdfRecord) (fuel : Nat) (rest : Str)
    (h : a.url.length + a.filename.length + uriLen a.gemini_file.uri + 25 ≤ fuel) :
    parseJVal fuel (pdfInfoDump a ++ rest) = some (autoJVal a, rest) := by
  obtain ⟨g, rfl⟩ : ∃ g, fuel = g + 6 := ⟨fuel - 6, by omega⟩
  have hurl : (str "url").length = 3 := rfl
  have hfn : (str "filename").length = 8 := rfl
  have hu : (str "uri").length = 3 := rfl
  have hcn : (str "citation_number").length = 15 := rfl
  have hwr : (str "was_reused").length = 10 := rfl
  simp only [pdfInfoDump, List.cons_append, List.append_assoc, List.singleton_append]
  rw [show g + 6 = (g + 5) + 1 from rfl]
  simp only [parseJVal, skipWs_cons_neg (show isJsonWs '\x7b' = false by decide),
    null_npre_brace, true_npre_brace, false_npre_brace,
    Bool.false_eq_true, if_false, skipWs_jstrDump]
  rw [show g + 5 = (g + 4) + 1 from rfl]
  rw [parseJObj_step_comma (g + 4) [] (str "url") (jstrDump a.url) (JVal.jstr a.url) _
    (by rw [hurl]; omega) (parseJVal_str a.url (g + 4) _ (by omega))]
  rw [show g + 4 = (g + 3) + 1 from rfl]
  rw [parseJObj_step_comma (g + 3) _ (str "filename") (jstrDump a.filename)
    (JVal.jstr a.filename) _
    (by rw [hfn]; omega) (parseJVal_str a.filename (g + 3) _ (by omega))]
  rw [show g + 3 = (g + 2) + 1 from rfl]
  rw [parseJObj_step_comma (g + 2) _ (str "uri") (jOptUriDump a.gemini_file.uri)
    (jOptUriVal a.gemini_file.uri) _
    (by rw [hu]; omega) (parseJVal_optUri a.gemini_file.uri (g + 2) _ (by omega))]
  rw [show g + 2 = (g + 1) + 1 from rfl]
  rw [parseJObj_step_comma (g + 1) _ (str "citation_number")
    (natDigits a.citation_number) (JVal.jint (a.citation_number : Int)) _
    (by rw [hcn]; omega)
    (parseJVal_nat a.citation_number (g + 1) _ (by omega) (head_comma_facts _).1
      ⟨(head_comma_facts _).2.1, (head_comma_facts _).2.2.1,
        (head_comma_facts _).2.2.2⟩)]
  rw [show g + 1 = g + 1 from rfl]
  rw [parseJObj_step_close g _ (str "was_reused")
    (if a.was_reused then str "true" else str "false") (JVal.jbool a.was_reused) _
    (by rw [hwr]; omega) (parseJVal_bool a.was_reused g _ (by omega))]
  rw [pdfAccChain]
  rfl



theorem listFuel_pos (l : List AutoPdfRecord) : 1 ≤ listFuel l := by
  cases l with
  | nil => simp [listFuel]
  | cons a t => simp [listFuel]

theorem parseJArr_pdfList : ∀ (autos : List AutoPdfRecord) (fuel : Nat) (rest : Str),
    autos ≠ [] → listFuel autos ≤ fuel →
    parseJArr fuel (pdfInfoListBody autos ++ (']' :: rest)) =
      some (autos.map autoJVal, rest) := by
  intro autos
  induction autos with
  | nil => intro fuel rest hne h; exact absurd rfl hne
  | cons a tl ih =>
    intro fuel rest hne h
    have h1 := listFuel_pos (a :: tl)
    obtain ⟨f, rfl⟩ : ∃ f, fuel = f + 1 := ⟨fuel - 1, by omega⟩
    have hrf : recFuel a ≤ f := by
      have := listFuel_pos tl
      simp only [listFuel] at h
      omega
    cases tl with
    | nil =>
      simp only [pdfInfoListBody]
      have hv : parseJVal f (pdfInfoDump a ++ (']' :: rest)) =
          some (autoJVal a, ']' :: rest) :=
        parseJVal_pdfObj a f (']' :: rest) (by simp only [recFuel] at hrf; omega)
      simp only [parseJArr, hv, skipWs_cons_neg (show isJsonWs ']' = false by decide),
        List.map_cons, List.map_nil]
    | cons a2 tl2 =>
      simp only [pdfInfoListBody, List.append_assoc]
      have hv : parseJVal f (pdfInfoDump a ++ (str ", " ++
          (pdfInfoListBody (a2 :: tl2) ++ (']' :: rest)))) =
          some (autoJVal a, str ", " ++ (pdfInfoListBody (a2 :: tl2) ++ (']' :: rest))) :=
        parseJVal_pdfObj a f _ (by simp only [recFuel] at hrf; omega)
      have hcm : skipWs (str ", " ++ (pdfInfoListBody (a2 :: tl2) ++ (']' :: rest))) =
          ',' :: (' ' :: (pdfInfoListBody (a2 :: tl2) ++ (']' :: rest))) := by
        rw [show str ", " ++ (pdfInfoListBody (a2 :: tl2) ++ (']' :: rest)) =
          ',' :: (' ' :: (pdfInfoListBody (a2 :: tl2) ++ (']' :: rest))) from rfl]
        exact skipWs_cons_neg (by decide)
      have hle : listFuel (a2 :: tl2) ≤ f := by
        simp only [listFuel] at h ⊢
        omega
      have hih : parseJArr f (pdfInfoListBody (a2 :: tl2) ++ (']' :: rest)) =
          some ((a2 :: tl2).map autoJVal, rest) := ih f rest (by simp) hle
      have hws : parseJArr f (' ' :: (pdfInfoListBody (a2 :: tl2) ++ (']' :: rest))) =
          some ((a2 :: tl2).map autoJVal, rest) := by
        rw [parseJArr_ws (by decide)]
        exact hih
      simp only [parseJArr, hv, hcm, hws, List.map_cons]
      rfl

set_option maxHeartbeats 1000000 in
theorem escChar_len_pos (c : Char) : 1 ≤ (escChar c).length := by
  unfold escChar
  split_ifs <;> simp [toHex4, str]

theorem flatten_escChar_len (s : Str) : s.length ≤ ((s.map escChar).flatten).length := by
  induction s with
  | nil => simp
  | cons c t ih =>
    rw [List.map_cons, List.flatten_cons, List.length_append, List.length_cons]
    have := escChar_len_pos c
    omega

theorem jstrDump_len (s : Str) : s.length + 2 ≤ (jstrDump s).length := by
  have h := flatten_escChar_len s
  simp only [jstrDump, List.length_cons, List.length_append, List.length_singleton]
  omega

theorem jOptUriDump_len (o : Option Str) : uriLen o + 2 ≤ (jOptUriDump o).length := by
  cases o with
  | none =>
    show uriLen none + 2 ≤ (str "null").length
    decide
  | some u =>
    have := jstrDump_len u
    simpa [jOptUriDump, uriLen] using this

theorem natDigits_len_pos (n : Nat) : 1 ≤ (natDigits n).length := by
  cases hn : natDigits n with
  | nil => exact absurd hn (natDigits_ne_nil n)
  | cons a t => simp

theorem pdfInfoDump_len (a : AutoPdfRecord) :
    recFuel a + 2 ≤ (pdfInfoDump a).length := by
  have h1 := jstrDump_len a.url
  have h2 := jstrDump_len a.filename
  have h3 := jOptUriDump_len a.gemini_file.uri
  have h4 := natDigits_len_pos a.citation_number
  have hbool : 4 ≤ (if a.was_reused then str "true" else str "false").length := by
    cases a.was_reused with
    | true => decide
    | false => decide
  have hk1 : (jstrDump (str "url")).length = 5 := rfl
  have hk2 : (jstrDump (str "filename")).length = 10 := rfl
  have hk3 : (jstrDump (str "uri")).length = 5 := rfl
  have hk4 : (jstrDump (str "citation_number")).length = 17 := rfl
  have hk5 : (jstrDump (str "was_reused")).length = 12 := rfl
  have hsep : (str ", ").length = 2 := rfl
  have hcol : (str ": ").length = 2 := rfl
  simp only [pdfInfoDump, recFuel, List.length_cons, List.length_append,
    hk1, hk2, hk3, hk4, hk5, hsep, hcol, List.length_singleton]
  omega

theorem listFuel_le_body (autos : List AutoPdfRecord) :
    listFuel autos ≤ (pdfInfoListBody autos).length + 1 := by
  induction autos with
  | nil => simp [listFuel, pdfInfoListBody]
  | cons a tl ih =>
    have hd := pdfInfoDump_len a
    cases tl with
    | nil =>
      simp only [listFuel, pdfInfoListBody]
      omega
    | cons b tl2 =>
      simp only [listFuel] at ih ⊢
      simp only [pdfInfoListBody, List.length_append]
      have hsep : (str ", ").length = 2 := rfl
      omega

theorem null_npre_lbrack (T : Str) : (str "null").isPrefixOf ('[' :: T) = false := by
  rw [show str "null" = 'n' :: ['u', 'l', 'l'] from rfl]
  exact isPrefixOf_cons_neq (by decide)

theorem true_npre_lbrack (T : Str) : (str "true").isPrefixOf ('[' :: T) = false := by
  rw [show str "true" = 't' :: ['r', 'u', 'e'] from rfl]
  exact isPrefixOf_cons_neq (by decide)

theorem false_npre_lbrack (T : Str) : (str "false").isPrefixOf ('[' :: T) = false := by
  rw [show str "false" = 'f' :: ['a', 'l', 's', 'e'] from rfl]
  exact isPrefixOf_cons_neq (by decide)

theorem jsonParse_pdfList (autos : List AutoPdfRecord) (hne : autos ≠ []) :
    jsonParse (pdfInfoListDump autos) = some (.jarr (autos.map autoJVal)) := by
  obtain ⟨a, tl, rfl⟩ : ∃ a tl, autos = a :: tl := by
    cases autos with
    | nil => exact absurd rfl hne
    | cons a tl => exact ⟨a, tl, rfl⟩
  obtain ⟨T, hT⟩ : ∃ T, pdfInfoListBody (a :: tl) = '\x7b' :: T := by
    cases tl with
    | nil => exact ⟨_, rfl⟩
    | cons b tl2 => exact ⟨_, rfl⟩
  have hfl : listFuel (a :: tl) ≤ 2 * T.length + 8 := by
    have h1 := listFuel_le_body (a :: tl)
    have h2 : (pdfInfoListBody (a :: tl)).length = T.length + 1 := by
      rw [hT]
      simp
    omega
  unfold jsonParse pdfInfoListDump
  rw [hT]
  simp only [List.cons_append]
  have hlen : ('[' :: '\x7b' :: (T ++ [']'])).length = T.length + 3 := by simp
  rw [hlen]
  rw [show 2 * (T.length + 3) + 3 = (2 * T.length + 8) + 1 from by omega]
  simp only [parseJVal, skipWs_cons_neg (show isJsonWs '[' = false by decide),
    null_npre_lbrack, true_npre_lbrack, false_npre_lbrack, Bool.false_eq_true, if_false,
    skipWs_cons_neg (show isJsonWs '\x7b' = false by decide)]
  rw [show '\x7b' :: (T ++ [']']) = ('\x7b' :: T) ++ (']' :: []) from by simp, ← hT]
  rw [parseJArr_pdfList (a :: tl) _ [] (by simp) hfl]
  rw [hT]
  simp only [List.cons_append]
  simp [skipWs]

/-! ### C3: localization of the delimited block -/

theorem pat_not_prefix_append {pat y w : Str} (hy : y ≠ [])
    (hself : ∀ k, k < pat.length → 0 < k →
      pat.drop k ≠ pat.take (pat.length - k))
    (hocc : ∀ i, ¬ occursAt pat y i) :
    ¬ (pat <+: y ++ (pat ++ w)) := by
  intro hpre
  have heq : pat = (y ++ (pat ++ w)).take pat.length :=
    List.prefix_iff_eq_take.mp hpre
  by_cases hk : pat.length ≤ y.length
  · have htake : (y ++ (pat ++ w)).take pat.length = y.take pat.length := by
      rw [List.take_append_eq_append_take]
      have h0 : pat.length - y.length = 0 := by omega
      simp [h0]
    rw [htake] at heq
    refine hocc 0 ?_
    unfold occursAt
    rw [List.drop_zero, heq]
    exact List.take_prefix _ y
  · have hk1 : 1 ≤ y.length := by
      cases y with
      | nil => exact absurd rfl hy
      | cons a t => simp
    have htake : (y ++ (pat ++ w)).take pat.length =
        y ++ pat.take (pat.length - y.length) := by
      rw [List.take_append_eq_append_take]
      congr 1
      · exact List.take_of_length_le (by omega)
      · rw [List.take_append_eq_append_take]
        have h0 : pat.length - y.length - pat.length = 0 := by omega
        simp [h0]
    rw [htake] at heq
    have hdrop : pat.drop y.length = pat.take (pat.length - y.length) := by
      conv_lhs => rw [heq]
      exact List.drop_left y _
    exact hself y.length (by omega) (by omega) hdrop

theorem openTag_selfoverlap : ∀ k, k < openTag.length → 0 < k →
    openTag.drop k ≠ openTag.take (openTag.length - k) := by
  decide

theorem closeTag_selfoverlap : ∀ k, k < closeTag.length → 0 < k →
    closeTag.drop k ≠ closeTag.take (closeTag.length - k) := by
  decide

theorem closeTag_not_pre_append {c : Char} {t w : Str}
    (h : containsSub closeTag (c :: t) = false) :
    closeTag.isPrefixOf ((c :: t) ++ (closeTag ++ w)) = false := by
  have hgen := @pat_not_prefix_append closeTag (c :: t) w
    (by simp) closeTag_selfoverlap (containsSub_false_no_occurs h)
  cases hb : closeTag.isPrefixOf ((c :: t) ++ (closeTag ++ w)) with
  | false => rfl
  | true => exact absurd (List.isPrefixOf_iff_prefix.mp hb) hgen

theorem uptoCloseTag_append {p : Str} (hp : containsSub closeTag p = false) :
    uptoCloseTag (p ++ closeTag) = some p := by
  induction p with
  | nil =>
    simp only [List.nil_append]
    obtain ⟨c0, t0, hct⟩ : ∃ c t, closeTag = c :: t := ⟨_, _, rfl⟩
    rw [hct]
    simp only [uptoCloseTag]
    have hpre : closeTag.isPrefixOf (c0 :: t0) = true := by
      rw [← hct]
      exact List.isPrefixOf_iff_prefix.mpr List.prefix_rfl
    rw [if_pos hpre]
  | cons c t ih =>
    have hnp : closeTag.isPrefixOf (c :: (t ++ closeTag)) = false := by
      have h2 := @closeTag_not_pre_append c t [] hp
      rw [List.append_nil] at h2
      simpa using h2
    simp only [List.cons_append, uptoCloseTag, List.append_eq, hnp, Bool.false_eq_true,
      if_false, ih (containsSub_cons_false hp).2]
    rfl

theorem blockSearch_append {u p : Str} (hu : containsSub openTag u = false)
    (hp : containsSub closeTag p = false) :
    blockSearch (u ++ (openTag ++ (p ++ closeTag))) = some p := by
  induction u with
  | nil =>
    simp only [List.nil_append]
    obtain ⟨c0, t0, hct⟩ : ∃ c t, openTag ++ (p ++ closeTag) = c :: t := ⟨_, _, rfl⟩
    rw [hct]
    simp only [blockSearch]
    have hpre : openTag.isPrefixOf (c0 :: t0) = true := by
      rw [← hct]
      exact List.isPrefixOf_iff_prefix.mpr (List.prefix_append _ _)
    have hdrop : (c0 :: t0).drop openTag.length = p ++ closeTag := by
      rw [← hct]
      exact List.drop_left _ _
    simp only [hpre, if_true, hdrop, uptoCloseTag_append hp]
  | cons c t ih =>
    have hnp : openTag.isPrefixOf ((c :: t) ++ (openTag ++ (p ++ closeTag))) = false := by
      have hgen := @pat_not_prefix_append openTag (c :: t)
        (p ++ closeTag) (by simp) openTag_selfoverlap
        (containsSub_false_no_occurs hu)
      cases hb : openTag.isPrefixOf ((c :: t) ++ (openTag ++ (p ++ closeTag))) with
      | false => rfl
      | true => exact absurd (List.isPrefixOf_iff_prefix.mp hb) hgen
    rw [show (c :: t) ++ (openTag ++ (p ++ closeTag)) =
      c :: (t ++ (openTag ++ (p ++ closeTag))) from rfl] at hnp
    simp only [List.cons_append, blockSearch, List.append_eq, hnp, Bool.false_eq_true,
      if_false, ih (containsSub_cons_false hu).2]

theorem resultEntry_record_fields (env : SearchEnv) (i : Nat) (r : SearchResult)
    (a : AutoPdfRecord) (h : (resultEntry env i r).2.1 = some a) :
    a.citation_number = i ∧ a.url = r.url ∧ a.filename = resolveFilename i r.url := by
  simp only [resultEntry] at h
  split at h
  · next g wr created heq =>
    simp only [Option.some.injEq] at h
    subst h
    exact ⟨rfl, rfl, rfl⟩
  · next created heq =>
    exact absurd h (by simp)

set_option maxRecDepth 100000 in
/-- C3: counterexample — the spec claims the round trip holds for every
search call that auto-uploads a PDF, but when a search result snippet
itself contains a decoy `<AUTO_UPLOADED_PDFS>...</AUTO_UPLOADED_PDFS>`
pair, `re.search` matches the decoy (leftmost match), `json.loads` fails
on its payload, and extraction returns the empty list even though the
ledger holds one record. -/
theorem C3_counterexample :
    searchAutos
        ⟨true, true, some [⟨str "files/g1", some (str "a.pdf"), some (str "uri://1")⟩],
          fun _ => ⟨false, none, none⟩, fun _ => none⟩
        [⟨str "T1", str "http://h/a.pdf",
          some (str "see <AUTO_UPLOADED_PDFS>bogus</AUTO_UPLOADED_PDFS> end"), none⟩] =
      [⟨str "http://h/a.pdf", str "a.pdf",
        ⟨str "files/g1", some (str "a.pdf"), some (str "uri://1")⟩, true, 1⟩] ∧
    extract_auto_uploaded_pdfs
        (dental_guideline_search
          ⟨true, true, some [⟨str "files/g1", some (str "a.pdf"), some (str "uri://1")⟩],
            fun _ => ⟨false, none, none⟩, fun _ => none⟩
          [⟨str "T1", str "http://h/a.pdf",
            some (str "see <AUTO_UPLOADED_PDFS>bogus</AUTO_UPLOADED_PDFS> end"), none⟩]
          (str "q"))
        (some [⟨str "files/g1", some (str "a.pdf"), some (str "uri://1")⟩]) =
      .jarr [] :=
  ⟨rfl, rfl⟩

/-- C3 (amended): when at least one PDF is auto-uploaded, no decoy opening
tag occurs in the table text before the block, and no closing tag occurs
inside the serialized JSON payload, the tool output ends with the
delimited block, the payload parses as a JSON array with exactly one entry
per ledger record (each carrying url, filename, uri, citation_number equal
to the record's table position, and was_reused), and
`extract_auto_uploaded_pdfs` recovers exactly the parsed ledger entries
(with `gemini_file` handles attached by URI lookup when the listing is
available). -/
theorem C3_block_roundtrip (env : SearchEnv) (results : List SearchResult)
    (query : Str) (files : Option (List GFile))
    (hne : searchAutos env results ≠ [])
    (hopen : containsSub openTag (searchHeader ++ (searchLoop env 1 results).1 ++
      citationRules ++ ['\n']) = false)
    (hclose : containsSub closeTag (pdfInfoListDump (searchAutos env results)) = false) :
    dental_guideline_search env results query =
      (searchHeader ++ (searchLoop env 1 results).1 ++ citationRules ++ ['\n']) ++
        (openTag ++ (pdfInfoListDump (searchAutos env results) ++ closeTag)) ∧
    jsonParse (pdfInfoListDump (searchAutos env results)) =
      some (.jarr ((searchAutos env results).map autoJVal)) ∧
    (∀ a ∈ searchAutos env results, ∃ p, p ∈ List.enumFrom 1 results ∧
      (resultEntry env p.1 p.2).2.1 = some a ∧ a.citation_number = p.1 ∧
      a.url = p.2.url ∧ a.filename = resolveFilename p.1 p.2.url) ∧
    extract_auto_uploaded_pdfs (dental_guideline_search env results query) files =
      .jarr (match files with
        | none => (searchAutos env results).map autoJVal
        | some fs => attachAll fs ((searchAutos env results).map autoJVal)) := by
  have hres : results.isEmpty = false := by
    cases results with
    | nil => exact absurd rfl hne
    | cons a t => rfl
  have hae : (searchAutos env results).isEmpty = false := by
    cases hsa : searchAutos env results with
    | nil => exact absurd hsa hne
    | cons a t => rfl
  have hab : autoBlock (searchAutos env results) =
      '\n' :: (openTag ++ (pdfInfoListDump (searchAutos env results) ++ closeTag)) := by
    simp only [autoBlock, hae, Bool.false_eq_true, if_false]
    rw [show str "<AUTO_UPLOADED_PDFS>" = openTag from rfl,
      show str "</AUTO_UPLOADED_PDFS>" = closeTag from rfl]
    simp [List.append_assoc]
  have h1 : dental_guideline_search env results query =
      (searchHeader ++ (searchLoop env 1 results).1 ++ citationRules ++ ['\n']) ++
        (openTag ++ (pdfInfoListDump (searchAutos env results) ++ closeTag)) := by
    unfold dental_guideline_search
    rw [hres]
    simp only [Bool.false_eq_true, if_false]
    rw [show (searchLoop env 1 results).2.1 = searchAutos env results from rfl, hab]
    simp [List.append_assoc]
  refine ⟨h1, jsonParse_pdfList _ hne, ?_, ?_⟩
  · intro a ha
    rw [show searchAutos env results =
      (List.enumFrom 1 results).filterMap
        (fun p => (resultEntry env p.1 p.2).2.1) from searchLoop_autos env 1 results] at ha
    obtain ⟨p, hp, hpa⟩ := List.mem_filterMap.mp ha
    obtain ⟨hn, hu2, hf2⟩ := resultEntry_record_fields env p.1 p.2 a hpa
    exact ⟨p, hp, hpa, hn, hu2, hf2⟩
  · have hbs : blockSearch
        ((searchHeader ++ (searchLoop env 1 results).1 ++ citationRules ++ ['\n']) ++
          (openTag ++ (pdfInfoListDump (searchAutos env results) ++ closeTag))) =
        some (pdfInfoListDump (searchAutos env results)) :=
      blockSearch_append hopen hclose
    rw [h1]
    simp only [extract_auto_uploaded_pdfs, hbs, jsonParse_pdfList _ hne]
    cases files with
    | none => rfl
    | some fs => rfl

set_option maxRecDepth 100000 in
/-- C3: witness — a two-result search where the first result's PDF is
reused from the store; both hypotheses of the amended round trip hold and
extraction recovers the ledger. -/
theorem C3_witness :
    extract_auto_uploaded_pdfs
        (dental_guideline_search
          ⟨true, true, some [⟨str "files/g1", some (str "a.pdf"), some (str "uri://1")⟩],
            fun _ => ⟨false, none, none⟩, fun _ => none⟩
          [⟨str "T1", str "http://h/a.pdf", some (str "snip"), none⟩,
           ⟨str "T2", str "http://h/b.txt", none, none⟩] (str "q"))
        (some [⟨str "files/g1", some (str "a.pdf"), some (str "uri://1")⟩]) =
      .jarr (attachAll [⟨str "files/g1", some (str "a.pdf"), some (str "uri://1")⟩]
        ((searchAutos
          ⟨true, true, some [⟨str "files/g1", some (str "a.pdf"), some (str "uri://1")⟩],
            fun _ => ⟨false, none, none⟩, fun _ => none⟩
          [⟨str "T1", str "http://h/a.pdf", some (str "snip"), none⟩,
           ⟨str "T2", str "http://h/b.txt", none, none⟩]).map autoJVal)) ∧
    jsonParse (pdfInfoListDump (searchAutos
        ⟨true, true, some [⟨str "files/g1", some (str "a.pdf"), some (str "uri://1")⟩],
          fun _ => ⟨false, none, none⟩, fun _ => none⟩
        [⟨str "T1", str "http://h/a.pdf", some (str "snip"), none⟩,
         ⟨str "T2", str "http://h/b.txt", none, none⟩])) =
      some (.jarr ((searchAutos
        ⟨true, true, some [⟨str "files/g1", some (str "a.pdf"), some (str "uri://1")⟩],
          fun _ => ⟨false, none, none⟩, fun _ => none⟩
        [⟨str "T1", str "http://h/a.pdf", some (str "snip"), none⟩,
         ⟨str "T2", str "http://h/b.txt", none, none⟩]).map autoJVal)) := by
  have h := C3_block_roundtrip
    ⟨true, true, some [⟨str "files/g1", some (str "a.pdf"), some (str "uri://1")⟩],
      fun _ => ⟨false, none, none⟩, fun _ => none⟩
    [⟨str "T1", str "http://h/a.pdf", some (str "snip"), none⟩,
     ⟨str "T2", str "http://h/b.txt", none, none⟩] (str "q")
    (some [⟨str "files/g1", some (str "a.pdf"), some (str "uri://1")⟩])
    (by rw [show searchAutos
        ⟨true, true, some [⟨str "files/g1", some (str "a.pdf"), some (str "uri://1")⟩],
          fun _ => ⟨false, none, none⟩, fun _ => none⟩
        [⟨str "T1", str "http://h/a.pdf", some (str "snip"), none⟩,
         ⟨str "T2", str "http://h/b.txt", none, none⟩] =
        [⟨str "http://h/a.pdf", str "a.pdf",
          ⟨str "files/g1", some (str "a.pdf"), some (str "uri://1")⟩, true, 1⟩]
        from rfl]; simp)
    (by rfl) (by rfl)
  exact ⟨h.2.2.2, h.2.1⟩

end DentalAgent
